import Mathlib

/-
Verification of the coherence core of the EthicalAI repository.

This file gives a shallow embedding, in Lean 4, of the numerical core of the
repository (axis packs, the resonance metric, the Choquet integral, the
SRL-lite frame extractor, the skip-graph substrate with heat-kernel
diffusion, the axis-pack builders, JSON (de)serialization of packs, and the
pipeline orchestrator), together with theorems settling the specification
claims about that core.

Modelling conventions
- Machine floats are modelled by an arbitrary linear ordered field, written
  as a section variable, instantiated at ℚ for executable checks and at ℝ
  where the code performs spectral computations (eigendecompositions,
  vector norms).  Numeric literals such as 1e-5 denote the corresponding
  exact rationals.
- numpy ndarrays of dimension 0, 1 and 2 are modelled by the type NpArr
  below; operations that raise in Python return Except.error here.
- numpy matmul raises a ValueError whenever the contracted (core)
  dimensions disagree; that error is modelled by the constructor
  NpErr.dimMismatch.  Other raised errors get their own constructors.
- Python dicts keyed by frozensets are modelled by association lists keyed
  by Finset ℕ, with lookup defaulting to 0 exactly as dict.get(A, 0.0).
-/

open BigOperators Matrix

/-- Errors raised by the modelled Python code.  Each constructor corresponds
to one raise site or numpy error kind in the source. -/
inductive NpErr : Type where
  /-- numpy matmul / dot with mismatched core dimensions (ValueError). -/
  | dimMismatch : NpErr
  /-- raise ValueError for an input that is not 1D or 2D (or not 2D where required). -/
  | ndimBad : NpErr
  /-- numpy elementwise broadcast failure (ValueError). -/
  | broadcastMismatch : NpErr
  /-- IndexError, e.g. reading shape[0] of a 0-d array. -/
  | indexErr : NpErr
  /-- a failed assert statement (AssertionError). -/
  | assertFail : NpErr
  /-- ValueError raised by AxisPack.validate when Q is not orthonormal. -/
  | notOrthonormal : NpErr
  /-- ValueError raised on an empty seed set. -/
  | emptySeed : NpErr
  /-- ValueError raised when a builder receives no axes. -/
  | noAxes : NpErr
  /-- ValueError raised when no axis survives the advanced build. -/
  | noValidAxes : NpErr
  /-- ValueError for a bad weights_init shape. -/
  | weightsShape : NpErr
  /-- ValueError for an invalid stacked Q shape in the advanced builder. -/
  | qShape : NpErr
  /-- ValueError raised by np.array on ragged nested lists. -/
  | raggedArray : NpErr
  deriving DecidableEq, Repr

/-- A 2-d numpy array: an explicit column count together with the rows.
ndarrays are rectangular, so every row of a well-formed value has length
cols; the column count is carried explicitly because numpy knows the shape
even when there are zero rows. -/
structure Mat2 (α : Type) where
  cols : ℕ
  rows : List (List α)
  deriving DecidableEq, Repr

/-- Well-formedness of a Mat2: every row has length cols (this is the
rectangularity every real ndarray has by construction). -/
def Mat2.WF {α : Type} (M : Mat2 α) : Prop :=
  ∀ r ∈ M.rows, r.length = M.cols

instance {α : Type} (M : Mat2 α) : Decidable (Mat2.WF M) := by
  unfold Mat2.WF; infer_instance

/-- A numpy array of dimension 0, 1 or 2. -/
inductive NpArr (α : Type) : Type where
  | a0 : α → NpArr α
  | a1 : List α → NpArr α
  | a2 : Mat2 α → NpArr α
  deriving DecidableEq, Repr

section FieldOps

variable {α : Type} [LinearOrderedField α]

/-- Dot product of two equal-length lists (the computational core of
numpy dot / matmul; callers perform the shape check). -/
def dotL (a b : List α) : α :=
  (List.zipWith (fun x y => x * y) a b).sum

/-- numpy dot of two 1-d arrays: checks the core dimension first. -/
def npDot (a b : List α) : Except NpErr α :=
  if a.length = b.length then .ok (dotL a b) else .error .dimMismatch

/-- Column j of a Mat2, as a list (entries of rows at index j). -/
def Mat2.col (M : Mat2 α) (j : ℕ) : List α :=
  M.rows.map (fun r => r.getD j 0)

/-- Q.T @ x for Q of shape (d, k) and x of shape (d,): fails with the numpy
core-dimension mismatch unless x has length d. -/
def matTvec (Q : Mat2 α) (x : List α) : Except NpErr (List α) :=
  if x.length = Q.rows.length then
    .ok ((List.range Q.cols).map (fun j => dotL (Q.col j) x))
  else .error .dimMismatch

/-- X @ Q for X of shape (n, c) and Q of shape (d, k): fails with the numpy
core-dimension mismatch unless c = d. -/
def matMul2 (X Q : Mat2 α) : Except NpErr (Mat2 α) :=
  if X.cols = Q.rows.length then
    .ok ⟨Q.cols, X.rows.map (fun r => (List.range Q.cols).map (fun j => dotL r (Q.col j)))⟩
  else .error .dimMismatch

/-- Mean of a list of numbers (callers guarantee nonemptiness). -/
def meanL (l : List α) : α := l.sum / (l.length : α)

end FieldOps

/-- The AxisPack data entity of coherence/axis/pack.py: axis names, the
projection basis Q of shape (d, k), per-axis calibration lambda and beta,
linear aggregation weights, and the optional Choquet capacity mu.  The
free-form meta field has no behavioural role in the claims and is omitted. -/
structure AxisPack (α : Type) where
  names : List String
  Q : Mat2 α
  lambda : List α
  beta : List α
  weights : List α
  mu : List (Finset ℕ × α)
  deriving DecidableEq

namespace AxisPack

/-- Number of axes, as in the Python property k = len(names). -/
def k {α : Type} (p : AxisPack α) : ℕ := p.names.length

/-- Embedding dimension, as in the Python property d = Q.shape[0]. -/
def d {α : Type} (p : AxisPack α) : ℕ := p.Q.rows.length

end AxisPack

section Choquet

variable {α : Type} [LinearOrderedField α]

/-- Lookup in a frozenset-keyed association list with a default, modelling
Python dict.get(key, default). -/
def lookupD (l : List (Finset ℕ × α)) (key : Finset ℕ) (dflt : α) : α :=
  match l with
  | [] => dflt
  | (a, v) :: rest => if key = a then v else lookupD rest key dflt

/-- Insert one element into an ascending-sorted list (stable: equal elements
keep the incoming one behind existing ones only when strictly needed). -/
def insertAsc (a : α) : List α → List α
  | [] => [a]
  | b :: bs => if a ≤ b then a :: b :: bs else b :: insertAsc a bs

/-- Ascending sort of a list, modelling numpy argsort followed by gathering
(x_arr[order] in choquet_integral); only the sorted values matter. -/
def sortAsc : List α → List α
  | [] => []
  | a :: as' => insertAsc a (sortAsc as')

/-- The tie tolerance 1e-12 used by choquet_integral. -/
def epsTie : α := 1 / 1000000000000

/-- The level set A_i = \x7b j : x_j >= t - 1e-12 \x7d computed inside
choquet_integral (mask over the original array x). -/
def levelSet (x : List α) (t : α) : Finset ℕ :=
  (Finset.range x.length).filter (fun j => t - epsTie ≤ x.getD j 0)

/-- The accumulation loop of choquet_integral: walks the ascending sorted
values, adding (x_(i) - x_(i-1)) * mu(A_i) with prev starting at 0. -/
def choquetLoop (x : List α) (mu : List (Finset ℕ × α)) : List α → α → α
  | [], _ => 0
  | xi :: rest, prev => (xi - prev) * lookupD mu (levelSet x xi) 0 + choquetLoop x mu rest xi

/-- choquet_integral from coherence/axis/choquet.py: the discrete Choquet
integral of x with respect to the capacity mu, using the ascending-sort
formula with tie tolerance 1e-12 and mu defaulting to 0 on missing subsets.
An empty x returns 0 (the explicit k == 0 early return). -/
def choquet_integral (x : List α) (mu : List (Finset ℕ × α)) : α :=
  choquetLoop x mu (sortAsc x) 0

end Choquet

section Resonance

variable {α : Type} [LinearOrderedField α]

open NpArr

/-- project from coherence/metrics/resonance.py: Q.T @ x for a 1-d input,
X @ Q for a 2-d input, ValueError otherwise.  The matmul fails fast with a
dimension-mismatch error whenever the input feature dimension differs from
Q's row count; nothing is truncated or padded. -/
def project (X : NpArr α) (pack : AxisPack α) : Except NpErr (NpArr α) :=
  match X with
  | a1 x => (matTvec pack.Q x).map a1
  | a2 M => (matMul2 M pack.Q).map a2
  | a0 _ => .error .ndimBad

/-- utilities from coherence/metrics/resonance.py: the elementwise affine
map lambda * coords + beta, on a 1-d or 2-d input.  The modelled broadcast
check requires lambda and beta to have exactly the per-row length of
coords (numpy length-1 singleton broadcasting is not modelled; no claim
exercises packs whose calibration vectors have length 1 with k larger). -/
def utilities (coords : NpArr α) (pack : AxisPack α) : Except NpErr (NpArr α) :=
  match coords with
  | a1 c =>
    if pack.lambda.length = c.length ∧ pack.beta.length = c.length then
      .ok (a1 (List.zipWith (fun lb x => lb.1 * x + lb.2) (pack.lambda.zip pack.beta) c))
    else .error .broadcastMismatch
  | a2 M =>
    if pack.lambda.length = M.cols ∧ pack.beta.length = M.cols then
      .ok (a2 ⟨M.cols, M.rows.map
        (fun r => List.zipWith (fun lb x => lb.1 * x + lb.2) (pack.lambda.zip pack.beta) r)⟩)
    else .error .broadcastMismatch
  | a0 _ => .error .ndimBad

/-- aggregate from coherence/metrics/resonance.py: Choquet integral when
pack.mu is non-empty, otherwise the dot product with pack.weights; rowwise
for 2-d input.  A 1-d input yields a 0-d scalar array, a 2-d input a 1-d
array, exactly as the numpy code does. -/
def aggregate (u : NpArr α) (pack : AxisPack α) : Except NpErr (NpArr α) :=
  match u with
  | a1 v =>
    match pack.mu with
    | [] => (npDot v pack.weights).map a0
    | _ => .ok (a0 (choquet_integral v pack.mu))
  | a2 M =>
    match pack.mu with
    | [] =>
      if M.cols = pack.weights.length then
        .ok (a1 (M.rows.map (fun r => dotL r pack.weights)))
      else .error .dimMismatch
    | _ => .ok (a1 (M.rows.map (fun r => choquet_integral r pack.mu)))
  | a0 _ => .error .ndimBad

/-- resonance from coherence/metrics/resonance.py: the end-to-end
aggregate (utilities (project X pack)) chain. -/
def resonance (X : NpArr α) (pack : AxisPack α) : Except NpErr (NpArr α) := do
  let coords ← project X pack
  let u ← utilities coords pack
  aggregate u pack

/-- token_saliency from coherence/coherence/spans.py: per-token resonance
(the trailing asarray is the identity in the model). -/
def token_saliency (X : NpArr α) (pack : AxisPack α) : Except NpErr (NpArr α) :=
  resonance X pack

end Resonance

section PackJsonIO

variable {α : Type} [LinearOrderedField α]

/-- The absolute tolerance passed to np.allclose in AxisPack.validate. -/
def atolV : α := 1 / 100000

/-- The default relative tolerance of np.allclose (1e-5), which validate
leaves in place. -/
def rtolV : α := 1 / 100000

/-- The orthonormality test of AxisPack.validate: np.allclose(Q.T @ Q,
eye(k), atol=1e-5) holds entrywise with numpy's allclose formula
|a - b| <= atol + rtol * |b|. -/
def AllcloseEye (Q : Mat2 α) (k : ℕ) : Prop :=
  ∀ i < k, ∀ j < k,
    |dotL (Q.col i) (Q.col j) - (if i = j then (1 : α) else 0)| ≤
      atolV + rtolV * (if i = j then (1 : α) else 0)

instance (Q : Mat2 α) (k : ℕ) : Decidable (AllcloseEye Q k) := by
  unfold AllcloseEye; infer_instance

/-- AxisPack.validate from coherence/axis/pack.py: asserts that Q is a 2-d
ndarray (rectangularity of the modelled rows), that Q has k columns, that
lambda, beta and weights have shape (k,), and that Q.T @ Q is within the
allclose tolerance of the identity; the first three failures raise
AssertionError, the last a ValueError. -/
def validateCheck (p : AxisPack α) : Except NpErr Unit :=
  if ¬ p.Q.WF then .error .assertFail
  else if p.Q.cols ≠ p.k then .error .assertFail
  else if ¬ (p.lambda.length = p.k ∧ p.beta.length = p.k ∧ p.weights.length = p.k) then
    .error .assertFail
  else if AllcloseEye p.Q p.k then .ok () else .error .notOrthonormal

/-- The JSON object form of an AxisPack (section 6 of the spec): nested
float lists for Q, float lists for the calibration vectors, and the mu
capacity keyed by comma-joined sorted index strings, modelled as the sorted
index lists themselves.  Optional fields model keys absent from the JSON
object.  Floats survive the float32 -> float -> JSON -> float32 journey of
the Python code exactly, so serialization is the identity on numbers here. -/
structure PackJson (α : Type) where
  names : List String
  Q : List (List α)
  lambda : Option (List α)
  beta : Option (List α)
  weights : Option (List α)
  mu : Option (List (List ℕ × α))
  deriving DecidableEq

/-- The mu_to_json helper: each frozenset key becomes its ascending-sorted
index list (the comma-joined string of the Python code, sans commas). -/
def muToJson (mu : List (Finset ℕ × α)) : List (List ℕ × α) :=
  mu.map (fun kv => (kv.1.sort (· ≤ ·), kv.2))

/-- The mu_from_json helper: empty keys are skipped (the Python code skips
the empty string, which is the serialization of the empty frozenset), and
every other key list is parsed back into a frozenset. -/
def muFromJson (l : List (List ℕ × α)) : List (Finset ℕ × α) :=
  l.filterMap (fun kv => if kv.1 = [] then none else some (kv.1.toFinset, kv.2))

/-- AxisPack.to_json_obj: validates the pack, then emits the JSON object.
save() is this plus file I/O, which is external to the model. -/
def toJsonObj (p : AxisPack α) : Except NpErr (PackJson α) :=
  (validateCheck p).bind (fun _ =>
    .ok ⟨p.names, p.Q.rows, some p.lambda, some p.beta, some p.weights, some (muToJson p.mu)⟩)

/-- AxisPack.from_json_obj: reads the fields with their documented
defaults (lambda -> ones, beta -> zeros, weights -> 1/max(1,k), mu -> empty),
rebuilds Q with np.array (an empty or ragged nested list does not produce a
2-d array, so validation fails for it), validates the pack and returns it.
load() is file I/O plus this function. -/
def fromJsonObj (obj : PackJson α) : Except NpErr (AxisPack α) :=
  let k := obj.names.length
  let lam := obj.lambda.getD (List.replicate k 1)
  let bet := obj.beta.getD (List.replicate k 0)
  let wts := obj.weights.getD (List.replicate k ((1 : α) / ((max 1 k : ℕ) : α)))
  let mu := muFromJson (obj.mu.getD [])
  if obj.Q = [] then .error .assertFail
  else if (∀ r ∈ obj.Q, r.length = (obj.Q.headD []).length) then
    let p : AxisPack α := ⟨obj.names, ⟨(obj.Q.headD []).length, obj.Q⟩, lam, bet, wts, mu⟩
    (validateCheck p).bind (fun _ => .ok p)
  else .error .raggedArray

/-- Round trip save -> load, with the external file I/O elided: serialize
then deserialize. -/
def roundTrip (p : AxisPack α) : Except NpErr (AxisPack α) :=
  (toJsonObj p).bind fromJsonObj

end PackJsonIO

section SrlLite

variable {α : Type} [LinearOrderedField α]

open NpArr

/-- shape[0] of an ndarray: the IndexError of reading shape[0] on a 0-d
array is modelled by an error. -/
def shape0 (X : NpArr α) : Except NpErr ℕ :=
  match X with
  | a0 _ => .error .indexErr
  | a1 v => .ok v.length
  | a2 M => .ok M.rows.length

/-- Extract the underlying list of a 1-d array; a 0-d array raises the
IndexError that _local_maxima's shape[0] access would raise, a 2-d array
the ambiguous-truth-value ValueError its elementwise comparisons would
raise (neither occurs on the claims' inputs). -/
def asList1 (X : NpArr α) : Except NpErr (List α) :=
  match X with
  | a0 _ => .error .indexErr
  | a1 v => .ok v
  | a2 _ => .error .ndimBad

/-- The _local_maxima helper of coherence/frames/srl_lite.py: indices whose
value is >= both neighbours, out-of-range neighbours counting as minus
infinity (modelled by WithBot). -/
def localMaxima (s : List α) : List ℕ :=
  (List.range s.length).filter (fun i =>
    (if 1 ≤ i then ((s.getD (i - 1) 0 : α) : WithBot α) else ⊥) ≤ (s.getD i 0 : α) ∧
    (if i + 1 < s.length then ((s.getD (i + 1) 0 : α) : WithBot α) else ⊥) ≤ (s.getD i 0 : α))

/-- detect_predicates from coherence/frames/srl_lite.py: local maxima of
the token saliency that clear the saliency threshold. -/
def detect_predicates (X : NpArr α) (pack : AxisPack α) (saliencyThresh : α) :
    Except NpErr (List ℕ) := do
  let s ← asList1 (← token_saliency X pack)
  pure ((localMaxima s).filter (fun i => saliencyThresh ≤ s.getD i 0))

/-- The leftward while loop of _expand_arg: decrement start while it can
move left, the bandwidth bound center - (start - 1) < max_len holds, and
the saliency at start - 1 clears the threshold.  The fuel argument carries
the remaining bandwidth max_len - 1 - (center - start), which the loop
condition makes positive exactly when a step is still allowed. -/
def expandLeftGo (s : List α) (thresh : α) : ℕ → ℕ → ℕ
  | 0, start => start
  | fuel + 1, start =>
    if 1 ≤ start ∧ thresh ≤ s.getD (start - 1) 0 then expandLeftGo s thresh fuel (start - 1)
    else start

/-- The rightward while loop of _expand_arg: increment the end while it is
below n, the bandwidth bound (end - 1) - center < max_len holds, and the
saliency at end clears the threshold.  The fuel carries the remaining
bandwidth max_len - ((end - 1) - center). -/
def expandRightGo (s : List α) (thresh : α) (n : ℕ) : ℕ → ℕ → ℕ
  | 0, e => e
  | fuel + 1, e =>
    if e < n ∧ thresh ≤ s.getD e 0 then expandRightGo s thresh n fuel (e + 1)
    else e

/-- _expand_arg from coherence/frames/srl_lite.py: grow a span around
center in both directions, at most max_len - 1 steps to the left and at
most max_len steps to the right of center (the asymmetry is in the source's
two loop bounds), adding a token only while its saliency clears the
threshold; the center token itself is always in the span. -/
def expandArg (s : List α) (center : ℕ) (maxLen : ℕ) (thresh : α) : ℕ × ℕ :=
  (expandLeftGo s thresh (maxLen - 1) center,
   expandRightGo s thresh s.length maxLen (center + 1))

/-- Slice l[a:b] with Python clamping semantics (for nonnegative bounds). -/
def sliceL (l : List α) (a b : ℕ) : List α := (l.drop a).take (b - a)

/-- Debug metadata attached to a Frame when build_frames runs with
debug=True, mirroring the keys of the Python debug dict. -/
structure DebugMeta (α : Type) where
  predIndex : ℕ
  predSaliency : α
  predCandidates : List ℕ
  argBand : α
  maxArgLen : ℕ
  argLeftExpansion : ℕ × ℕ
  argRightExpansion : ℕ × ℕ
  roleModeApplied : String
  detectors : List (String × List (ℕ × ℕ))
  deriving DecidableEq

/-- The Frame dataclass of coherence/frames/schema.py: an id, a predicate
span, ordered role spans, the predicate saliency score and the optional
debug metadata. -/
structure Frame (α : Type) where
  id : String
  predicate : ℕ × ℕ
  roles : List (String × (ℕ × ℕ))
  score : α
  meta : Option (DebugMeta α)
  deriving DecidableEq

/-- Cue words of the evidence detector. -/
def EVIDENCE_CUES : List String := ["because", "since", "as", "per", "according", "evidence", "docs"]

/-- Cue words of the condition detector. -/
def CONDITION_CUES : List String := ["if", "unless", "when", "provided", "assuming"]

/-- Shared body of detect_evidence_spans and detect_condition_spans: all
one-token spans within the window around the pivot whose lowercased token
is a cue word. -/
def cueSpans (cues : List String) (tokens : List String) (pivot : ℕ) (window : ℕ) :
    List (ℕ × ℕ) :=
  (List.range tokens.length).filterMap (fun (i : ℕ) =>
    if (((i : ℤ) - (pivot : ℤ)).natAbs ≤ window) ∧ (tokens.getD i "").toLower ∈ cues then
      some ((i, min (i + 1) tokens.length) : ℕ × ℕ)
    else none)

/-- detect_evidence_spans from coherence/frames/detectors/evidence.py. -/
def detect_evidence_spans (tokens : List String) (pivot : ℕ) : List (ℕ × ℕ) :=
  cueSpans EVIDENCE_CUES tokens pivot 4

/-- detect_condition_spans from coherence/frames/detectors/conditional.py. -/
def detect_condition_spans (tokens : List String) (pivot : ℕ) : List (ℕ × ℕ) :=
  cueSpans CONDITION_CUES tokens pivot 4

/-- Mean saliency over a span as a WithBot value: the Python code uses
minus infinity for an empty side. -/
def sideMean (s : List α) (sp : ℕ × ℕ) : WithBot α :=
  if sp.1 < sp.2 then ((meanL (sliceL s sp.1 sp.2) : α) : WithBot α) else ⊥

/-- Role assignment for one predicate, mirroring the role_mode branch of
build_frames: in agent_patient mode the side with the higher mean saliency
becomes agent and the other patient (only nonempty sides are recorded); in
the default lr mode the nonempty sides become arg_left and arg_right. -/
def assignRoles (s : List α) (roleMode : String) (left right : ℕ × ℕ) :
    List (String × (ℕ × ℕ)) :=
  if roleMode = "agent_patient" then
    if left.2 - left.1 > 0 ∨ right.2 - right.1 > 0 then
      if sideMean s right ≤ sideMean s left then
        (if left.2 - left.1 > 0 then [("agent", left)] else []) ++
        (if right.2 - right.1 > 0 then [("patient", right)] else [])
      else
        (if right.2 - right.1 > 0 then [("agent", right)] else []) ++
        (if left.2 - left.1 > 0 then [("patient", left)] else [])
    else []
  else
    (if left.2 - left.1 > 0 then [("arg_left", left)] else []) ++
    (if right.2 - right.1 > 0 then [("arg_right", right)] else [])

/-- The extra roles supplied by the optional cue detectors, together with
the detector debug metadata, mirroring the token_texts branch of
build_frames. -/
def detectorRoles (tokenTexts : Option (List String)) (detectEvidence detectCondition : Bool)
    (p : ℕ) : List (String × (ℕ × ℕ)) × List (String × List (ℕ × ℕ)) :=
  match tokenTexts with
  | none => ([], [])
  | some texts =>
    let ev := if detectEvidence then detect_evidence_spans texts p else []
    let cd := if detectCondition then detect_condition_spans texts p else []
    ((match ev with | [] => [] | e :: _ => [("evidence", e)]) ++
     (match cd with | [] => [] | c :: _ => [("condition", c)]),
     (match ev with | [] => [] | _ => [("evidence", ev)]) ++
     (match cd with | [] => [] | _ => [("condition", cd)]))

/-- One iteration of the predicate loop of build_frames: build the Frame
for predicate index p from the saliency list s. -/
def mkFrame (s : List α) (n0 : ℕ) (preds : List ℕ) (argBand : α) (maxArgLen : ℕ)
    (debug : Bool) (roleMode : String) (detectEvidence detectCondition : Bool)
    (tokenTexts : Option (List String)) (p : ℕ) : Frame α :=
  let predSal := s.getD p 0
  let argThresh := argBand * predSal
  let leftCenter := p - 1
  let rightCenter := min (n0 - 1) (p + 1)
  let left := expandArg s leftCenter maxArgLen argThresh
  let right := expandArg s rightCenter maxArgLen argThresh
  let dets := detectorRoles tokenTexts detectEvidence detectCondition p
  { id := "f" ++ toString p
    predicate := (p, p + 1)
    roles := assignRoles s roleMode left right ++ dets.1
    score := predSal
    meta := if debug then
        some ⟨p, predSal, preds, argBand, maxArgLen, left, right, roleMode, dets.2⟩
      else none }

/-- build_frames from coherence/frames/srl_lite.py: one frame per detected
predicate, with argument spans expanded around the adjacent indices and the
optional role detectors applied. -/
def build_frames (X : NpArr α) (pack : AxisPack α) (saliencyThresh : α) (argBand : α)
    (maxArgLen : ℕ) (debug : Bool) (roleMode : String)
    (detectEvidence detectCondition : Bool) (tokenTexts : Option (List String)) :
    Except NpErr (List (Frame α)) := do
  let s ← asList1 (← token_saliency X pack)
  let preds ← detect_predicates X pack saliencyThresh
  let n0 ← shape0 X
  pure (preds.map (mkFrame s n0 preds argBand maxArgLen debug roleMode
    detectEvidence detectCondition tokenTexts))

end SrlLite

section SkipMesh

variable {α : Type} [LinearOrderedField α]

open NpArr

/-- Indexing X[i]: a row of a 2-d array, a scalar of a 1-d array, an
IndexError on a 0-d array.  Out-of-range indices would raise in Python;
they are defaulted here and never reached by the claims (all generated
pair indices lie inside the array). -/
def rowOf (X : NpArr α) (i : ℕ) : Except NpErr (NpArr α) :=
  match X with
  | a0 _ => .error .indexErr
  | a1 v => .ok (a0 (v.getD i 0))
  | a2 M => .ok (a1 (M.rows.getD i []))

/-- Elementwise binary operation on same-shape arrays (numpy broadcast with
equal shapes; the claims never mix shapes here). -/
def zipArr (f : α → α → α) : NpArr α → NpArr α → Except NpErr (NpArr α)
  | a0 x, a0 y => .ok (a0 (f x y))
  | a1 x, a1 y =>
    if x.length = y.length then .ok (a1 (List.zipWith f x y)) else .error .broadcastMismatch
  | a2 M, a2 N =>
    if M.cols = N.cols ∧ M.rows.length = N.rows.length then
      .ok (a2 ⟨M.cols, List.zipWith (fun r t => List.zipWith f r t) M.rows N.rows⟩)
    else .error .broadcastMismatch
  | _, _ => .error .broadcastMismatch

/-- Scalar multiplication of an ndarray. -/
def smulArr (c : α) : NpArr α → NpArr α
  | a0 x => a0 (c * x)
  | a1 v => a1 (v.map (fun x => c * x))
  | a2 M => a2 ⟨M.cols, M.rows.map (fun r => r.map (fun x => c * x))⟩

/-- Read a scalar out of a 0-d array, as Python float(...) does on the
result of a 1-d resonance call. -/
def asScalar (X : NpArr α) : Except NpErr α :=
  match X with
  | a0 x => .ok x
  | _ => .error .ndimBad

/-- build_skip_pairs from coherence/coherence/skipmesh.py: all pairs (i, j)
with i < j < n and j - i <= max_skip. -/
def build_skip_pairs (n maxSkip : ℕ) : List (ℕ × ℕ) :=
  (List.range n).flatMap (fun i =>
    (List.range' (i + 1) (min n (i + 1 + maxSkip) - (i + 1))).map (fun j => (i, j)))

/-- span_skip_pairs from coherence/coherence/skipmesh.py: skip pairs of the
span [start, end), re-indexed into the full sequence. -/
def span_skip_pairs (start e maxSkip : ℕ) : List (ℕ × ℕ) :=
  if e ≤ start then []
  else (build_skip_pairs (e - start) maxSkip).map (fun ij => (start + ij.1, start + ij.2))

/-- span_coherence from coherence/coherence/skipmesh.py: the mean resonance
of the midpoints of all skip pairs inside the span, 0 when the span has no
pairs. -/
def span_coherence (X : NpArr α) (pack : AxisPack α) (start e maxSkip : ℕ) :
    Except NpErr α :=
  match span_skip_pairs start e maxSkip with
  | [] => .ok 0
  | ps => do
    let vals ← ps.mapM (fun ij => do
      let ri ← rowOf X ij.1
      let rj ← rowOf X ij.2
      let m ← zipArr (fun a b => (1 / 2 : α) * (a + b)) ri rj
      asScalar (← resonance m pack))
    pure (meanL vals)

end SkipMesh

section Vectorize

variable {α : Type} [LinearOrderedField α]

open NpArr

/-- span_mean from coherence/frames/vectorize.py: the columnwise mean of
the rows in [start, end), zeros for an empty span. -/
def span_mean (M : Mat2 α) (sp : ℕ × ℕ) : List α :=
  if sp.2 ≤ sp.1 then List.replicate M.cols 0
  else
    let rows := (M.rows.drop sp.1).take (sp.2 - sp.1)
    (List.range M.cols).map (fun j => meanL (rows.map (fun r => r.getD j 0)))

/-- The default role order of frame_embedding. -/
def defaultRolesOrder : List String := ["predicate", "arg_left", "arg_right"]

/-- frame_embedding from coherence/frames/vectorize.py: concatenation of
the mean vectors of the roles in the fixed order, missing roles giving the
zero vector (roles.get(role, (0, 0)) yields an empty span). -/
def frame_embedding (M : Mat2 α) (fr : Frame α) : List α :=
  (defaultRolesOrder.map (fun role =>
    if role = "predicate" then span_mean M fr.predicate
    else span_mean M (((fr.roles.lookup role).getD (0, 0))))).flatten

/-- compute_frame_vectors from coherence/pipeline/scoring.py: the stacked
frame embeddings, of shape (m, 3 d); a 1-d or 0-d token array has no
shape[1] and raises. -/
def compute_frame_vectors (X : NpArr α) (frames : List (Frame α)) :
    Except NpErr (Mat2 α) :=
  match X with
  | a2 M => .ok ⟨3 * M.cols, frames.map (frame_embedding M)⟩
  | _ => .error .indexErr

/-- Token-level output bundle of compute_token_vectors. -/
structure TokensOut (α : Type) where
  vectors : NpArr α
  saliency : NpArr α
  signal : NpArr α
  deriving DecidableEq

/-- compute_token_vectors from coherence/pipeline/scoring.py: recomputes
the raw saliency and returns it alongside the (possibly external) signal. -/
def compute_token_vectors (X : NpArr α) (pack : AxisPack α)
    (externalSignal : Option (NpArr α)) : Except NpErr (TokensOut α) := do
  let sal ← token_saliency X pack
  pure ⟨X, sal, externalSignal.getD sal⟩

/-- compute_span_vectors from coherence/pipeline/scoring.py: enumerate the
spans [i, j) with 1 <= j - i <= max_len and compute each one's skip-mesh
coherence. -/
def compute_span_vectors (X : NpArr α) (pack : AxisPack α) (maxLen maxSkip : ℕ) :
    Except NpErr (List (ℕ × ℕ) × List α) := do
  let n ← shape0 X
  let spans := (List.range n).flatMap (fun i =>
    (List.range' (i + 1) (min n (i + maxLen) + 1 - (i + 1))).map (fun j => ((i, j) : ℕ × ℕ)))
  let coh ← spans.mapM (fun ij => span_coherence X pack ij.1 ij.2 maxSkip)
  pure (spans, coh)

end Vectorize

section Substrate

/-- The weight mode of build_skip_adjacency: uniform weight 1 or inverse
distance 1/d. -/
inductive WeightMode : Type where
  | uniform : WeightMode
  | invDist : WeightMode
  deriving DecidableEq

/-- build_skip_adjacency from coherence/coherence/substrate.py: the
symmetric adjacency with entry w(|i - j|) whenever 1 <= |i - j| <= max_skip
(the Python double loop fills exactly these entries). -/
noncomputable def build_skip_adjacency (n maxSkip : ℕ) (mode : WeightMode) :
    Matrix (Fin n) (Fin n) ℝ :=
  Matrix.of fun i j =>
    let dist := ((i : ℤ) - (j : ℤ)).natAbs
    if 1 ≤ dist ∧ dist ≤ maxSkip then
      (match mode with
       | .uniform => 1
       | .invDist => 1 / (dist : ℝ))
    else 0

/-- Row sums of W (np.sum(W, axis=1)), the degree vector. -/
noncomputable def degOf {n : ℕ} (W : Matrix (Fin n) (Fin n) ℝ) : Fin n → ℝ :=
  fun i => ∑ j, W i j

/-- laplacian from coherence/coherence/substrate.py: L = D - W followed by
the numerical symmetrization 0.5 * (L + L.T). -/
noncomputable def laplacian {n : ℕ} (W : Matrix (Fin n) (Fin n) ℝ) : Matrix (Fin n) (Fin n) ℝ :=
  ((1 : ℝ) / 2) • ((Matrix.diagonal (degOf W) - W) + (Matrix.diagonal (degOf W) - W)ᵀ)

/-- build_graph from coherence/coherence/substrate.py. -/
noncomputable def build_graph (n maxSkip : ℕ) (mode : WeightMode) :
    Matrix (Fin n) (Fin n) ℝ × Matrix (Fin n) (Fin n) ℝ :=
  (build_skip_adjacency n maxSkip mode, laplacian (build_skip_adjacency n maxSkip mode))

theorem build_skip_adjacency_symm (n maxSkip : ℕ) (mode : WeightMode) :
    (build_skip_adjacency n maxSkip mode)ᵀ = build_skip_adjacency n maxSkip mode := by
  ext i j
  have h : ((j : ℤ) - (i : ℤ)).natAbs = ((i : ℤ) - (j : ℤ)).natAbs := by
    omega
  simp only [Matrix.transpose_apply, build_skip_adjacency, Matrix.of_apply, h]

theorem build_skip_adjacency_nonneg (n maxSkip : ℕ) (mode : WeightMode) (i j : Fin n) :
    0 ≤ build_skip_adjacency n maxSkip mode i j := by
  simp only [build_skip_adjacency, Matrix.of_apply]
  split
  · cases mode
    · norm_num
    · positivity
  · exact le_refl 0

/-- With a symmetric W, the symmetrization in laplacian is the identity:
L = D - W exactly. -/
theorem laplacian_of_symm {n : ℕ} (W : Matrix (Fin n) (Fin n) ℝ) (hW : Wᵀ = W) :
    laplacian W = Matrix.diagonal (degOf W) - W := by
  unfold laplacian
  have hdiag : (Matrix.diagonal (degOf W))ᵀ = Matrix.diagonal (degOf W) :=
    Matrix.diagonal_transpose _
  rw [Matrix.transpose_sub, hdiag, hW]
  module

theorem laplacian_isHermitian {n : ℕ} (W : Matrix (Fin n) (Fin n) ℝ) :
    (laplacian W).IsHermitian := by
  show (laplacian W)ᵀ = laplacian W
  unfold laplacian
  rw [Matrix.transpose_smul, Matrix.transpose_add, Matrix.transpose_transpose, add_comm]

end Substrate

section Diffusion

/-- The matrix actually eigendecomposed by np.linalg.eigh: the solver reads
only the lower triangle (UPLO defaults to L) and treats the input as the
symmetric matrix it spans.  For symmetric input this is the input itself. -/
noncomputable def eighInputMat {n : ℕ} (L : Matrix (Fin n) (Fin n) ℝ) :
    Matrix (Fin n) (Fin n) ℝ :=
  Matrix.of fun i j => if (j : ℕ) ≤ (i : ℕ) then L i j else L j i

theorem eighInputMat_isHermitian {n : ℕ} (L : Matrix (Fin n) (Fin n) ℝ) :
    (eighInputMat L).IsHermitian := by
  show (eighInputMat L)ᵀ = eighInputMat L
  ext i j
  simp only [Matrix.transpose_apply, eighInputMat, Matrix.of_apply]
  rcases Nat.le_total (i : ℕ) (j : ℕ) with h | h
  · rcases Nat.eq_or_lt_of_le h with he | hlt
    · have : i = j := Fin.ext he
      simp [this]
    · rw [if_pos h, if_neg (by omega)]
  · rcases Nat.eq_or_lt_of_le h with he | hlt
    · have : j = i := Fin.ext he
      simp [this]
    · rw [if_neg (by omega), if_pos h]

theorem eighInputMat_of_hermitian {n : ℕ} (L : Matrix (Fin n) (Fin n) ℝ)
    (hL : L.IsHermitian) : eighInputMat L = L := by
  ext i j
  simp only [eighInputMat, Matrix.of_apply]
  split
  · rfl
  · exact hL.apply i j

/-- _eigh from coherence/coherence/diffusion.py: the eigenvalues and the
orthogonal eigenvector matrix of the (lower-triangle-symmetrized) input,
provided by the spectral theorem. -/
noncomputable def npEigh {n : ℕ} (L : Matrix (Fin n) (Fin n) ℝ) :
    (Fin n → ℝ) × Matrix (Fin n) (Fin n) ℝ :=
  ((eighInputMat_isHermitian L).eigenvalues,
   ((eighInputMat_isHermitian L).eigenvectorUnitary : Matrix (Fin n) (Fin n) ℝ))

/-- The 1-d branch of _apply_heat_kernel: y = U @ (exp(-tau*lam) * (U.T @ x)). -/
noncomputable def applyHeatKernel1 {n : ℕ} (U : Matrix (Fin n) (Fin n) ℝ)
    (lam : Fin n → ℝ) (x : Fin n → ℝ) (tau : ℝ) : Fin n → ℝ :=
  U *ᵥ (fun i => Real.exp (-tau * lam i) * (Uᵀ *ᵥ x) i)

/-- The 2-d branch of _apply_heat_kernel: Y = U @ (exp(-tau*lam)[:,None] * (U.T @ X)). -/
noncomputable def applyHeatKernel2 {n m : ℕ} (U : Matrix (Fin n) (Fin n) ℝ)
    (lam : Fin n → ℝ) (X : Matrix (Fin n) (Fin m) ℝ) (tau : ℝ) : Matrix (Fin n) (Fin m) ℝ :=
  U * Matrix.of (fun i j => Real.exp (-tau * lam i) * (Uᵀ * X) i j)

/-- diffuse from coherence/coherence/diffusion.py, for a 1-d signal and a
single scalar tau (the sequence-of-tau branch stacks these outputs and is
not needed by any claim). -/
noncomputable def diffuse1 {n : ℕ} (L : Matrix (Fin n) (Fin n) ℝ) (x : Fin n → ℝ)
    (tau : ℝ) : Fin n → ℝ :=
  applyHeatKernel1 (npEigh L).2 (npEigh L).1 x tau

/-- diffuse for a 2-d batch of signals and a single scalar tau. -/
noncomputable def diffuse2 {n m : ℕ} (L : Matrix (Fin n) (Fin n) ℝ)
    (X : Matrix (Fin n) (Fin m) ℝ) (tau : ℝ) : Matrix (Fin n) (Fin m) ℝ :=
  applyHeatKernel2 (npEigh L).2 (npEigh L).1 X tau

/-- The Dirichlet energy x^T L x of a signal on the graph with Laplacian L. -/
noncomputable def dirichletEnergy {n : ℕ} (L : Matrix (Fin n) (Fin n) ℝ)
    (x : Fin n → ℝ) : ℝ :=
  x ⬝ᵥ (L *ᵥ x)

theorem npEigh_UtU {n : ℕ} (L : Matrix (Fin n) (Fin n) ℝ) :
    (npEigh L).2ᵀ * (npEigh L).2 = 1 :=
  unitary.coe_star_mul_self (eighInputMat_isHermitian L).eigenvectorUnitary

theorem npEigh_UUt {n : ℕ} (L : Matrix (Fin n) (Fin n) ℝ) :
    (npEigh L).2 * (npEigh L).2ᵀ = 1 :=
  unitary.coe_mul_star_self (eighInputMat_isHermitian L).eigenvectorUnitary

theorem npEigh_spectral {n : ℕ} (L : Matrix (Fin n) (Fin n) ℝ) :
    eighInputMat L = (npEigh L).2 * Matrix.diagonal (npEigh L).1 * (npEigh L).2ᵀ := by
  have h := (eighInputMat_isHermitian L).spectral_theorem
  simpa [Function.comp, npEigh] using h

/-- Orthogonal change of basis preserves the dot product. -/
theorem dot_mulVec_orth {n : ℕ} (U : Matrix (Fin n) (Fin n) ℝ) (hU : Uᵀ * U = 1)
    (a b : Fin n → ℝ) : (U *ᵥ a) ⬝ᵥ (U *ᵥ b) = a ⬝ᵥ b := by
  rw [dotProduct_mulVec, vecMul_mulVec, hU, vecMul_one]

/-- The Dirichlet energy of a heat-kernel-diffused signal, in the
eigenbasis: a weighted sum of squares with weights lam_i e^(-2 tau lam_i). -/
theorem energy_heat_kernel {n : ℕ} (M : Matrix (Fin n) (Fin n) ℝ)
    (hM : eighInputMat M = M) (x : Fin n → ℝ) (tau : ℝ) :
    dirichletEnergy M (diffuse1 M x tau) =
      ∑ i, (npEigh M).1 i *
        (Real.exp (-tau * (npEigh M).1 i))^2 * (((npEigh M).2ᵀ *ᵥ x) i)^2 := by
  set U := (npEigh M).2 with hUdef
  set lam := (npEigh M).1 with hlamdef
  set w : Fin n → ℝ := fun i => Real.exp (-tau * lam i) * (Uᵀ *ᵥ x) i with hw
  have hspec : M = U * Matrix.diagonal lam * Uᵀ := by
    rw [← hM]; exact npEigh_spectral M
  have hU : Uᵀ * U = 1 := npEigh_UtU M
  have hdiff : diffuse1 M x tau = U *ᵥ w := rfl
  rw [dirichletEnergy, hdiff]
  have hM1 : M *ᵥ (U *ᵥ w) = U *ᵥ (Matrix.diagonal lam *ᵥ w) := by
    rw [Matrix.mulVec_mulVec, Matrix.mulVec_mulVec, hspec,
      Matrix.mul_assoc (U * Matrix.diagonal lam) Uᵀ U, hU, Matrix.mul_one]
  rw [hM1, dot_mulVec_orth U hU w]
  simp only [dotProduct, Matrix.mulVec_diagonal]
  refine Finset.sum_congr rfl (fun i _ => ?_)
  simp only [hw]
  ring

/-- The quadratic form of the Laplacian of a symmetric W is the half sum of
W_ij (x_i - x_j)^2. -/
theorem lap_quadform {n : ℕ} (W : Matrix (Fin n) (Fin n) ℝ) (hW : Wᵀ = W)
    (x : Fin n → ℝ) :
    x ⬝ᵥ (laplacian W *ᵥ x) = (1 / 2) * ∑ i, ∑ j, W i j * (x i - x j)^2 := by
  have hpt : ∀ i j, W j i = W i j := by
    intro i j
    conv_lhs => rw [← hW]
    exact Matrix.transpose_apply W j i
  rw [laplacian_of_symm W hW, Matrix.sub_mulVec, dotProduct_sub]
  have h1 : x ⬝ᵥ (Matrix.diagonal (degOf W) *ᵥ x) = ∑ i, degOf W i * x i ^ 2 := by
    simp only [dotProduct, Matrix.mulVec_diagonal]
    exact Finset.sum_congr rfl (fun i _ => by ring)
  have h2 : x ⬝ᵥ (W *ᵥ x) = ∑ i, ∑ j, W i j * x i * x j := by
    simp only [dotProduct, Matrix.mulVec, Finset.mul_sum]
    exact Finset.sum_congr rfl (fun i _ => Finset.sum_congr rfl (fun j _ => by ring))
  have h4 : ∑ i, ∑ j, W i j * x i ^ 2 = ∑ i, degOf W i * x i ^ 2 := by
    refine Finset.sum_congr rfl (fun i _ => ?_)
    rw [degOf, Finset.sum_mul]
  have h5 : ∑ i, ∑ j, W i j * x j ^ 2 = ∑ i, degOf W i * x i ^ 2 := by
    rw [Finset.sum_comm]
    refine Finset.sum_congr rfl (fun j _ => ?_)
    rw [degOf, Finset.sum_mul]
    exact Finset.sum_congr rfl (fun i _ => by rw [hpt j i])
  have hterm : ∀ i j : Fin n, W i j * (x i - x j)^2 =
      (W i j * x i ^ 2 + W i j * x j ^ 2) - 2 * (W i j * x i * x j) :=
    fun i j => by ring
  have hexp : ∑ i, ∑ j, W i j * (x i - x j)^2 =
      ((∑ i, ∑ j, W i j * x i ^ 2) + (∑ i, ∑ j, W i j * x j ^ 2)) -
      2 * (∑ i, ∑ j, W i j * x i * x j) := by
    simp only [hterm, Finset.sum_sub_distrib, Finset.sum_add_distrib, ← Finset.mul_sum]
  rw [h1, h2, hexp, h4, h5]
  ring

theorem build_graph_lap_posSemidef (n maxSkip : ℕ) (mode : WeightMode) :
    (build_graph n maxSkip mode).2.PosSemidef := by
  refine ⟨laplacian_isHermitian _, fun x => ?_⟩
  have hstar : star x = x := rfl
  rw [hstar]
  have h := lap_quadform (build_skip_adjacency n maxSkip mode)
    (build_skip_adjacency_symm n maxSkip mode) x
  show (0 : ℝ) ≤ x ⬝ᵥ ((build_graph n maxSkip mode).2 *ᵥ x)
  rw [show (build_graph n maxSkip mode).2 = laplacian (build_skip_adjacency n maxSkip mode)
    from rfl, h]
  apply mul_nonneg (by norm_num)
  refine Finset.sum_nonneg (fun i _ => Finset.sum_nonneg (fun j _ => ?_))
  exact mul_nonneg (build_skip_adjacency_nonneg n maxSkip mode i j) (sq_nonneg _)

end Diffusion

section DiffusionLemmas

theorem energies_antitone {n : ℕ} (M : Matrix (Fin n) (Fin n) ℝ)
    (hMsym : eighInputMat M = M) (hpsd : M.PosSemidef) (x : Fin n → ℝ)
    (tau1 tau2 : ℝ) (h0 : 0 ≤ tau1) (h12 : tau1 ≤ tau2) :
    dirichletEnergy M (diffuse1 M x tau2) ≤ dirichletEnergy M (diffuse1 M x tau1) := by
  rw [energy_heat_kernel M hMsym x tau2, energy_heat_kernel M hMsym x tau1]
  refine Finset.sum_le_sum (fun i _ => ?_)
  have hlam : 0 ≤ (npEigh M).1 i := by
    have hpsd2 : (eighInputMat M).PosSemidef := by rw [hMsym]; exact hpsd
    exact hpsd2.eigenvalues_nonneg i
  have hexp : Real.exp (-tau2 * (npEigh M).1 i) ≤ Real.exp (-tau1 * (npEigh M).1 i) := by
    apply Real.exp_le_exp.2
    nlinarith
  have h2pos : (0 : ℝ) < Real.exp (-tau2 * (npEigh M).1 i) := Real.exp_pos _
  have h1pos : (0 : ℝ) < Real.exp (-tau1 * (npEigh M).1 i) := Real.exp_pos _
  have hsq : (Real.exp (-tau2 * (npEigh M).1 i))^2 ≤ (Real.exp (-tau1 * (npEigh M).1 i))^2 := by
    nlinarith
  have hc : (0 : ℝ) ≤ (((npEigh M).2ᵀ *ᵥ x) i)^2 := sq_nonneg _
  exact mul_le_mul_of_nonneg_right (mul_le_mul_of_nonneg_left hsq hlam) hc

theorem diffuse1_zero {n : ℕ} (L : Matrix (Fin n) (Fin n) ℝ) (x : Fin n → ℝ) :
    diffuse1 L x 0 = x := by
  show (npEigh L).2 *ᵥ (fun i => Real.exp (-(0 : ℝ) * (npEigh L).1 i) *
    ((npEigh L).2ᵀ *ᵥ x) i) = x
  have h : (fun i => Real.exp (-(0 : ℝ) * (npEigh L).1 i) * ((npEigh L).2ᵀ *ᵥ x) i) =
      (npEigh L).2ᵀ *ᵥ x := by
    funext i
    simp
  rw [h, Matrix.mulVec_mulVec, npEigh_UUt, Matrix.one_mulVec]

theorem diffuse2_zero {n m : ℕ} (L : Matrix (Fin n) (Fin n) ℝ)
    (X : Matrix (Fin n) (Fin m) ℝ) : diffuse2 L X 0 = X := by
  show (npEigh L).2 * Matrix.of (fun i j => Real.exp (-(0 : ℝ) * (npEigh L).1 i) *
    ((npEigh L).2ᵀ * X) i j) = X
  have h : Matrix.of (fun i j => Real.exp (-(0 : ℝ) * (npEigh L).1 i) *
      ((npEigh L).2ᵀ * X) i j) = (npEigh L).2ᵀ * X := by
    ext i j
    simp
  rw [h, ← Matrix.mul_assoc, npEigh_UUt, Matrix.one_mul]

end DiffusionLemmas

section BasicBuilder

variable {α : Type} [LinearOrderedField α]

/-- _mean from coherence/axis/builder.py: raises on an empty seed list
(EmptySeedSet) or on vectors of differing dimension (np.stack), otherwise
the elementwise mean. -/
def meanVec (vs : List (List α)) : Except NpErr (List α) :=
  match vs with
  | [] => .error .emptySeed
  | v :: _ =>
    if (∀ r ∈ vs, r.length = v.length) then
      .ok ((List.range v.length).map (fun j => meanL (vs.map (fun r => r.getD j 0))))
    else .error .raggedArray

/-- _diff_of_means from coherence/axis/builder.py: mean(pos) - mean(neg),
with the numpy broadcast failing on mismatched dimensions. -/
def diff_of_means (pos neg : List (List α)) : Except NpErr (List α) := do
  let vp ← meanVec pos
  let vn ← meanVec neg
  if vp.length = vn.length then .ok (List.zipWith (fun a b => a - b) vp vn)
  else .error .broadcastMismatch

/-- The reduced-QR contract of np.linalg.qr, stated of an injected qr
routine: on a (d, c) input the returned Q has shape (d, min d c), is
rectangular, and has exactly orthonormal columns.  LAPACK's Householder
construction guarantees orthonormal columns for every input, including
rank-deficient ones, which is why the contract carries no rank hypothesis;
the routine itself is an external library call and is therefore a
parameter rather than a definition. -/
def QRContract (qr : Mat2 α → Mat2 α) : Prop :=
  ∀ A : Mat2 α,
    (qr A).cols = min A.rows.length A.cols ∧
    (qr A).rows.length = A.rows.length ∧
    (qr A).WF ∧
    (∀ i < (qr A).cols, ∀ j < (qr A).cols,
      dotL ((qr A).col i) ((qr A).col j) = if i = j then (1 : α) else 0)

/-- build_axis_pack_from_vectors from coherence/axis/builder.py: one
difference-of-means direction per axis, stacked into a (d, k) matrix,
orthonormalized by the injected reduced QR, and returned as an AxisPack
with the given calibration defaults.  No validation is run on the result. -/
def build_axis_pack_from_vectors (qr : Mat2 α → Mat2 α)
    (seeds : List (String × (List (List α) × List (List α))))
    (lambdaInit betaInit : α) (weightsInit : Option (List α)) :
    Except NpErr (AxisPack α) :=
  if (seeds.map Prod.fst).length = 0 then throw .noAxes
  else
    (seeds.mapM (fun s => diff_of_means s.2.1 s.2.2)).bind (fun vs =>
      if ¬ (∀ v ∈ vs, v.length = (vs.headD []).length) then throw .raggedArray
      else
        ((match weightsInit with
         | none => .ok (List.replicate (seeds.map Prod.fst).length
             ((1 : α) / ((seeds.map Prod.fst).length : α)))
         | some w => if w.length = (seeds.map Prod.fst).length then .ok w
             else .error .weightsShape : Except NpErr (List α))).bind (fun weightsArr =>
          .ok ⟨seeds.map Prod.fst,
               qr ⟨vs.length, (List.range (vs.headD []).length).map
                 (fun i => vs.map (fun v => v.getD i 0))⟩,
               List.replicate (seeds.map Prod.fst).length lambdaInit,
               List.replicate (seeds.map Prod.fst).length betaInit,
               weightsArr, []⟩))

end BasicBuilder

section AdvancedBuilder

/-- Euclidean norm of a vector, np.linalg.norm. -/
noncomputable def normE (v : List ℝ) : ℝ := Real.sqrt ((v.map (fun x => x^2)).sum)

/-- Row-vector times matrix, v @ M, with the matmul dimension check. -/
noncomputable def vecMat (v : List ℝ) (M : Mat2 ℝ) : Except NpErr (List ℝ) :=
  if v.length = M.rows.length then
    .ok ((List.range M.cols).map (fun j => dotL v (M.col j)))
  else .error .dimMismatch

/-- Matrix times column vector, M @ v, with the matmul dimension check. -/
noncomputable def matVecM (M : Mat2 ℝ) (v : List ℝ) : Except NpErr (List ℝ) :=
  if M.cols = v.length then
    .ok (M.rows.map (fun r => dotL r v))
  else .error .dimMismatch

/-- The identity matrix np.eye(D) as a Mat2. -/
noncomputable def eyeM (D : ℕ) : Mat2 ℝ :=
  ⟨D, (List.range D).map (fun i => (List.range D).map (fun j => if i = j then (1 : ℝ) else 0))⟩

/-- One axis of AdvancedAxisBuilder.build_axis_pack_from_vectors: whiten
the seed vectors, derive a direction (injected LDA when enabled, whitened
difference of means otherwise), back-project when the whitener reduced the
dimension, and normalize to unit length.  The whole Python body runs under
a try/except that drops the axis on any exception, so every raising path is
collapsed into none here. -/
noncomputable def processAxis (useLda : Bool)
    (lda : List (List ℝ) → List (List ℝ) → Option (List ℝ))
    (muW : List ℝ) (wWhit : Mat2 ℝ) (D : ℕ)
    (pos neg : List (List ℝ)) : Option (List ℝ) := do
  if pos.length = 0 ∨ neg.length = 0 then none
  let posW ← (pos.mapM (fun r =>
    if r.length = muW.length then (vecMat (List.zipWith (fun a b => a - b) r muW) wWhit).toOption
    else none))
  let negW ← (neg.mapM (fun r =>
    if r.length = muW.length then (vecMat (List.zipWith (fun a b => a - b) r muW) wWhit).toOption
    else none))
  let wDir ←
    if useLda then lda posW negW
    else do
      let vp ← (meanVec posW).toOption
      let vn ← (meanVec negW).toOption
      if vp.length = vn.length then
        let v := List.zipWith (fun a b => a - b) vp vn
        if 0 < normE v then some (v.map (fun x => x / (normE v + 1 / 1000000000000))) else some v
      else none
  let axisVec ←
    if wWhit.cols ≠ D then (matVecM wWhit wDir).toOption
    else some wDir
  if normE axisVec < 1 / 1000000000000 then none
  else some (axisVec.map (fun x => x / normE axisVec))

/-- The embedding dimension D read off the first seed, len(next(iter(...))[0][0]). -/
def advD (s0 : String × (List (List ℝ) × List (List ℝ))) : ℕ := (s0.2.1.headD []).length

/-- The whitening mean and matrix: the injected whitener applied to all seed
rows when whitening is on, else the zero mean and identity. -/
noncomputable def advMuWhit (whitener : Mat2 ℝ → List ℝ × Mat2 ℝ) (uw : Bool)
    (seeds : List (String × (List (List ℝ) × List (List ℝ)))) (D : ℕ) :
    List ℝ × Mat2 ℝ :=
  if uw then whitener ⟨D, (seeds.map (fun s => s.2.1 ++ s.2.2)).flatten⟩
  else (List.replicate D 0, eyeM D)

/-- The per-axis loop with its drop-on-failure policy: axes whose processing
raises are silently skipped (the try/except of the Python loop). -/
noncomputable def advProcessed (whitener : Mat2 ℝ → List ℝ × Mat2 ℝ)
    (lda : List (List ℝ) → List (List ℝ) → Option (List ℝ)) (uw ul : Bool)
    (seeds : List (String × (List (List ℝ) × List (List ℝ)))) (D : ℕ) :
    List (String × List ℝ) :=
  seeds.filterMap (fun s =>
    (processAxis ul lda (advMuWhit whitener uw seeds D).1 (advMuWhit whitener uw seeds D).2
      D s.2.1 s.2.2).map (fun v => (s.1, v)))

/-- np.hstack of the processed axis column vectors into a (D, k) matrix. -/
noncomputable def advQMat (vecs : List (List ℝ)) (D : ℕ) : Mat2 ℝ :=
  ⟨vecs.length, (List.range D).map (fun i => vecs.map (fun v => v.getD i 0))⟩

/-- The optional QR orthonormalization: applied only when the orthogonalize
flag is set and there is more than one column. -/
noncomputable def advQOrtho (ortho : Bool) (qr : Mat2 ℝ → Mat2 ℝ)
    (vecs : List (List ℝ)) (D : ℕ) : Mat2 ℝ :=
  if ortho ∧ 1 < (advQMat vecs D).cols then qr (advQMat vecs D) else advQMat vecs D

/-- The weights policy: user weights are filtered down to the surviving axes
when their length matches the seed count, else uniform 1/k. -/
noncomputable def advWeights (wi : Option (List ℝ)) (names processedNames : List String)
    (kk : ℕ) : List ℝ :=
  match wi with
  | some w =>
    if w.length = names.length then
      (List.zip names w).filterMap (fun nw =>
        if nw.1 ∈ processedNames then some nw.2 else none)
    else List.replicate kk ((1 : ℝ) / (kk : ℝ))
  | none => List.replicate kk ((1 : ℝ) / (kk : ℝ))

/-- The final AxisPack.validate gate: the pack is returned only if validate
passes, and the validation error propagates otherwise. -/
def finishValidated {α : Type} [LinearOrderedField α] (p : AxisPack α) :
    Except NpErr (AxisPack α) :=
  (validateCheck p).bind (fun _ => .ok p)

/-- The tail of the advanced builder after the per-axis loop: Q shape checks,
the unit-column assert, weights selection, pack assembly and the validate
gate. -/
noncomputable def advFinish (qOrtho : Mat2 ℝ) (processed : List (String × List ℝ))
    (D : ℕ) (li bi : ℝ) (wi : Option (List ℝ)) (names : List String) :
    Except NpErr (AxisPack ℝ) :=
  if qOrtho.rows.length ≠ D then throw .qShape
  else if qOrtho.cols ≠ processed.length then throw .qShape
  else if ¬ (∀ j < qOrtho.cols, |normE (qOrtho.col j) - 1| ≤ atolV + rtolV * 1) then
    throw .assertFail
  else finishValidated ⟨processed.map Prod.fst, qOrtho,
    List.replicate qOrtho.cols li, List.replicate qOrtho.cols bi,
    advWeights wi names (processed.map Prod.fst) qOrtho.cols, []⟩

/-- AdvancedAxisBuilder.build_axis_pack_from_vectors from
coherence/axis/advanced_builder.py.  The whitener (sklearn / numpy
covariance machinery) and the LDA solver are external numeric routines and
are injected, as is the reduced QR; the rest of the body — the per-axis
loop with its drop-on-failure policy, the stacking, the optional
orthonormalization, the shape checks, the unit-column assert and the final
AxisPack.validate gate — is modelled directly through the helper
definitions above.  The NaN/Inf check cannot fire over exact reals and is
omitted. -/
noncomputable def advanced_build
    (whitener : Mat2 ℝ → List ℝ × Mat2 ℝ)
    (lda : List (List ℝ) → List (List ℝ) → Option (List ℝ))
    (useWhitening useLda orthogonalize : Bool)
    (qr : Mat2 ℝ → Mat2 ℝ)
    (seeds : List (String × (List (List ℝ) × List (List ℝ))))
    (lambdaInit betaInit : ℝ) (weightsInit : Option (List ℝ)) :
    Except NpErr (AxisPack ℝ) :=
  match seeds with
  | [] => throw .noAxes
  | s0 :: _ =>
    if (advProcessed whitener lda useWhitening useLda seeds (advD s0)).length = 0 then
      throw .noValidAxes
    else if ¬ (∀ v ∈ (advProcessed whitener lda useWhitening useLda seeds (advD s0)).map
        Prod.snd, v.length = advD s0) then throw .qShape
    else advFinish
      (advQOrtho orthogonalize qr
        ((advProcessed whitener lda useWhitening useLda seeds (advD s0)).map Prod.snd)
        (advD s0))
      (advProcessed whitener lda useWhitening useLda seeds (advD s0))
      (advD s0) lambdaInit betaInit weightsInit (seeds.map Prod.fst)

end AdvancedBuilder

section Orchestrator

open NpArr

/-- OrchestratorParams from coherence/pipeline/orchestrator.py with its
default values. -/
structure OrchestratorParams where
  maxSpanLen : ℕ := 5
  maxSkip : ℕ := 2
  diffusionTau : Option ℝ := none
  debugFrames : Bool := false
  returnRoleProjections : Bool := false
  roleMode : String := "lr"
  detectEvidence : Bool := false
  detectCondition : Bool := false

/-- The bundle returned by run_pipeline_from_vectors (the Python dict with
keys tokens, spans, frames, frame_vectors and the optional
frame_role_coords / frame_coords). -/
structure PipelineOut where
  tokens : TokensOut ℝ
  spans : List (ℕ × ℕ) × List ℝ
  frames : List (Frame ℝ)
  frameVectors : Mat2 ℝ
  frameRoleCoords : Option (List (String × List (String × List ℝ)))
  frameCoords : Option (List (String × List ℝ))

/-- diffuse applied to an orchestrator signal: dispatch on the signal's
ndim as _apply_heat_kernel does (a 0-d signal raises), converting between
the list world of the pipeline and the Fin-indexed matrices of the
spectral model.  The signal length must match the Laplacian's size, as the
eigenbasis matmul requires. -/
noncomputable def diffuseArr {n : ℕ} (L : Matrix (Fin n) (Fin n) ℝ) (sig : NpArr ℝ)
    (tau : ℝ) : Except NpErr (NpArr ℝ) :=
  match sig with
  | a0 _ => .error .ndimBad
  | a1 v =>
    if v.length = n then
      .ok (a1 (List.ofFn (fun i : Fin n => diffuse1 L (fun j => v.getD j 0) tau i)))
    else .error .dimMismatch
  | a2 M =>
    if M.rows.length = n then
      .ok (a2 ⟨M.cols, List.ofFn (fun i : Fin n =>
        List.ofFn (fun j : Fin M.cols =>
          diffuse2 L (Matrix.of (fun r c => (M.rows.getD r []).getD c 0)) tau i j))⟩)
    else .error .dimMismatch

/-- Modelled from the spec: project_frame_roles is imported by the
orchestrator from coherence.pipeline.scoring, but no definition of it
exists anywhere in the repository.  Spec section 4.9 item 4 says that, for
each frame, each role's mean embedding is projected through the Resonance
Engine to per-role axis coordinates, the predicate span included.  Roles
with empty spans contribute nothing. -/
noncomputable def project_frame_roles (M : Mat2 ℝ) (frames : List (Frame ℝ))
    (pack : AxisPack ℝ) : Except NpErr (List (String × List (String × List ℝ))) :=
  frames.mapM (fun fr => do
    let withPred := ("predicate", fr.predicate) :: fr.roles
    let nonempty := withPred.filter (fun rs => rs.2.1 < rs.2.2)
    let coords ← nonempty.mapM (fun rs => do
      let c ← project (a1 (span_mean M rs.2)) pack
      let cl ← asList1 c
      pure (rs.1, cl))
    pure (fr.id, coords))

/-- Modelled from the spec: aggregate_frame_coords is imported by the
orchestrator from coherence.pipeline.scoring, but no definition of it
exists anywhere in the repository.  Spec section 4.9 item 4 says the
per-role coordinates are aggregated by arithmetic mean across the roles
with non-empty spans into one length-k vector. -/
noncomputable def aggregate_frame_coords (rc : List (String × List ℝ)) (k : ℕ) :
    List ℝ :=
  (List.range k).map (fun j => meanL (rc.map (fun r => r.2.getD j 0)))

/-- run_pipeline_from_vectors from coherence/pipeline/orchestrator.py:
token saliency first; when diffusion_tau is set and the sequence has at
least two tokens, the signal (and only the signal) is replaced by its
heat-kernel diffusion over the uniform skip graph; spans, frames and frame
vectors are computed from the raw token vectors; the optional role
projections are attached at the end. -/
noncomputable def run_pipeline_from_vectors (X : NpArr ℝ) (pack : AxisPack ℝ)
    (params : OrchestratorParams) (tokenTexts : Option (List String)) :
    Except NpErr PipelineOut := do
  let tokenSignal0 ← token_saliency X pack
  let tokenSignal ← (match params.diffusionTau with
    | none => pure tokenSignal0
    | some tau => do
      let n0 ← shape0 X
      if 2 ≤ n0 then
        diffuseArr (build_graph n0 params.maxSkip WeightMode.uniform).2 tokenSignal0 tau
      else pure tokenSignal0)
  let tokensOut ← compute_token_vectors X pack (some tokenSignal)
  let spansOut ← compute_span_vectors X pack params.maxSpanLen params.maxSkip
  let frames ← build_frames X pack 0 (1 / 2) 2 params.debugFrames params.roleMode
    params.detectEvidence params.detectCondition tokenTexts
  let frameVecs ← compute_frame_vectors X frames
  if params.returnRoleProjections ∧ 0 < frames.length then
    match X with
    | a2 M => do
      let rp ← project_frame_roles M frames pack
      pure ⟨tokensOut, spansOut, frames, frameVecs, some rp,
        some (rp.map (fun fr => (fr.1, aggregate_frame_coords fr.2 pack.k)))⟩
    | _ => throw .indexErr
  else
    pure ⟨tokensOut, spansOut, frames, frameVecs, none, none⟩

end Orchestrator

section EvalLemmas

variable {e s t : Type}

@[simp] theorem except_bind_ok (a : s) (f : s → Except e t) :
    ((Except.ok a : Except e s) >>= f) = f a := rfl

@[simp] theorem except_bind_err (x : e) (f : s → Except e t) :
    ((Except.error x : Except e s) >>= f) = Except.error x := rfl

@[simp] theorem except_bindf_ok (a : s) (f : s → Except e t) :
    (Except.ok a : Except e s).bind f = f a := rfl

@[simp] theorem except_bindf_err (x : e) (f : s → Except e t) :
    (Except.error x : Except e s).bind f = Except.error x := rfl

@[simp] theorem except_map_ok (a : s) (f : s → t) :
    Except.map f (Except.ok a : Except e s) = Except.ok (f a) := rfl

@[simp] theorem except_map_err (x : e) (f : s → t) :
    Except.map f (Except.error x : Except e s) = Except.error x := rfl

@[simp] theorem except_pure (a : s) : (pure a : Except e s) = Except.ok a := rfl

@[simp] theorem except_throw (x : e) : (throw x : Except e s) = Except.error x := rfl

variable {α : Type} [LinearOrderedField α]

theorem dotL_eq_sum (a b : List α) :
    dotL a b = ∑ i ∈ Finset.range (min a.length b.length), a.getD i 0 * b.getD i 0 := by
  induction a generalizing b with
  | nil => simp [dotL]
  | cons x xs ih =>
    cases b with
    | nil => simp [dotL]
    | cons y ys =>
      show x * y + dotL xs ys = _
      rw [ih ys, List.length_cons, List.length_cons, Nat.succ_min_succ,
        Finset.sum_range_succ']
      simp [List.getD_cons_succ, List.getD_cons_zero, add_comm]

theorem getD_map_range (n i : ℕ) (f : ℕ → α) (hi : i < n) :
    ((List.range n).map f).getD i 0 = f i := by
  rw [List.getD_eq_getElem _ _ (by simpa using hi)]
  simp

theorem getD_zipWith {β γ δ : Type} (f : β → γ → δ) (a : List β) (b : List γ)
    (i : ℕ) (d : δ) (db : β) (dc : γ) (ha : i < a.length) (hb : i < b.length) :
    (List.zipWith f a b).getD i d = f (a.getD i db) (b.getD i dc) := by
  rw [List.getD_eq_getElem _ _ (by rw [List.length_zipWith]; omega),
    List.getD_eq_getElem _ _ ha, List.getD_eq_getElem _ _ hb]
  simp

end EvalLemmas

section ClaimC1C2

open NpArr

/-- The hand-constructed AxisPack of claim C2: Q the first two standard
basis vectors of dimension 4, lambda = [2, 0.5], beta = [0.1, -0.2],
weights = [0.6, 0.4], no Choquet capacity. -/
def packC2 : AxisPack ℚ :=
  ⟨["a", "b"], ⟨2, [[1, 0], [0, 1], [0, 0], [0, 0]]⟩, [2, 1/2], [1/10, -1/5],
    [3/5, 2/5], []⟩

/-- C1: for every input whose feature dimension differs from pack.Q's row
count — a 1-d vector of the wrong length or a 2-d matrix with the wrong
column count — project, resonance and run_pipeline_from_vectors all fail
with the dimension-mismatch error (the ValueError numpy's matmul raises on
mismatched core dimensions) and return no result; nothing is truncated or
zero-padded. -/
theorem claim_C1_dimension_mismatch_fails (dq : ℕ) (x : List ℝ) (M : Mat2 ℝ)
    (pack : AxisPack ℝ) (params : OrchestratorParams) (texts : Option (List String))
    (hx : x.length = dq) (hM : M.cols = dq) (hd : dq ≠ pack.d) :
    project (a1 x) pack = .error .dimMismatch ∧
    project (a2 M) pack = .error .dimMismatch ∧
    resonance (a1 x) pack = .error .dimMismatch ∧
    resonance (a2 M) pack = .error .dimMismatch ∧
    run_pipeline_from_vectors (a1 x) pack params texts = .error .dimMismatch ∧
    run_pipeline_from_vectors (a2 M) pack params texts = .error .dimMismatch := by
  have hx1 : ¬ (x.length = pack.Q.rows.length) := by
    rw [hx]; exact hd
  have hM1 : ¬ (M.cols = pack.Q.rows.length) := by
    rw [hM]; exact hd
  have hp1 : project (a1 x) pack = .error .dimMismatch := by
    simp [project, matTvec, hx1]
  have hp2 : project (a2 M) pack = .error .dimMismatch := by
    simp [matMul2, project, hM1]
  have hr1 : resonance (a1 x) pack = .error .dimMismatch := by
    rw [resonance, hp1]; rfl
  have hr2 : resonance (a2 M) pack = .error .dimMismatch := by
    rw [resonance, hp2]; rfl
  refine ⟨hp1, hp2, hr1, hr2, ?_, ?_⟩
  · rw [run_pipeline_from_vectors, token_saliency, hr1]; rfl
  · rw [run_pipeline_from_vectors, token_saliency, hr2]; rfl

/-- Witness for C1 at a concrete input: a 1-d vector of length 3 and a
(1, 3) matrix against a pack with d = 2. -/
theorem claim_C1_dimension_mismatch_fails_witness :
    (3 : ℕ) ≠ (AxisPack.d ⟨["a"], ⟨1, [[1], [0]]⟩, [1], [0], [1], []⟩ : ℕ) ∧
    project (a1 [1, 2, 3]) (⟨["a"], ⟨1, [[1], [0]]⟩, [1], [0], [1], []⟩ : AxisPack ℝ) =
      .error .dimMismatch ∧
    run_pipeline_from_vectors (a2 ⟨3, [[1, 2, 3]]⟩)
      (⟨["a"], ⟨1, [[1], [0]]⟩, [1], [0], [1], []⟩ : AxisPack ℝ) {} none =
      .error .dimMismatch := by
  have h := claim_C1_dimension_mismatch_fails 3 [1, 2, 3] ⟨3, [[1, 2, 3]]⟩
    (⟨["a"], ⟨1, [[1], [0]]⟩, [1], [0], [1], []⟩ : AxisPack ℝ) {} none rfl rfl
    (by decide)
  exact ⟨by decide, h.1, h.2.2.2.2.2⟩

end ClaimC1C2

section ClaimC2

open NpArr

/-- C2: for every 1-d vector x of the pack's dimension and every
shape-consistent AxisPack with empty mu, resonance equals the closed form
sum over i < k of weights[i] * (lambda[i] * (Q^T x)[i] + beta[i]); and at
the hand-constructed pack of the claim (packC2) with x = [3,1,0,0], the
projection is [3,1], the utilities are [6.1, 0.3] and the aggregate is
3.78. -/
theorem claim_C2_resonance_closed_form (pack : AxisPack ℚ) (x : List ℚ)
    (hmu : pack.mu = []) (hx : x.length = pack.d)
    (hk : pack.Q.cols = pack.k)
    (hlam : pack.lambda.length = pack.Q.cols) (hbeta : pack.beta.length = pack.Q.cols)
    (hw : pack.weights.length = pack.Q.cols) :
    resonance (a1 x) pack = .ok (a0 (∑ i ∈ Finset.range pack.Q.cols,
      pack.weights.getD i 0 *
        (pack.lambda.getD i 0 * dotL (pack.Q.col i) x + pack.beta.getD i 0))) ∧
    project (a1 [3, 1, 0, 0]) packC2 = .ok (a1 [3, 1]) ∧
    utilities (a1 [3, 1]) packC2 = .ok (a1 [61/10, 3/10]) ∧
    aggregate (a1 [61/10, 3/10]) packC2 = .ok (a0 (378/100)) := by
  refine ⟨?_, ?_, ?_, ?_⟩
  · set kk := pack.Q.cols with hkk
    have hx1 : x.length = pack.Q.rows.length := hx
    have hproj : project (a1 x) pack =
        .ok (a1 ((List.range kk).map (fun j => dotL (pack.Q.col j) x))) := by
      simp [project, matTvec, hx1]
    set coords : List ℚ := (List.range kk).map (fun j => dotL (pack.Q.col j) x) with hco
    have hclen : coords.length = kk := by simp [hco]
    have hutil : utilities (a1 coords) pack =
        .ok (a1 (List.zipWith (fun lb x => lb.1 * x + lb.2)
          (pack.lambda.zip pack.beta) coords)) := by
      rw [utilities]
      rw [if_pos ⟨by rw [hclen, hlam], by rw [hclen, hbeta]⟩]
    set u : List ℚ := List.zipWith (fun lb x => lb.1 * x + lb.2)
      (pack.lambda.zip pack.beta) coords with hu
    have hulen : u.length = kk := by
      simp [hu, List.length_zipWith, List.length_zip, hlam, hbeta, hclen]
    have hagg : aggregate (a1 u) pack = .ok (a0 (dotL u pack.weights)) := by
      rw [aggregate, hmu]
      simp [npDot, hulen, hw]
    rw [resonance, hproj, except_bind_ok, hutil, except_bind_ok, hagg]
    congr 2
    rw [dotL_eq_sum, hulen, hw, min_self]
    refine Finset.sum_congr rfl (fun i hi => ?_)
    have hik : i < kk := Finset.mem_range.1 hi
    have hgu : u.getD i 0 = pack.lambda.getD i 0 * coords.getD i 0 + pack.beta.getD i 0 := by
      rw [hu, getD_zipWith _ _ _ _ _ ((0 : ℚ), (0 : ℚ)) 0
        (by rw [List.length_zip, hlam, hbeta]; omega) (by rw [hclen]; exact hik)]
      rw [List.zip, getD_zipWith _ _ _ _ _ (0 : ℚ) 0
        (by rw [hlam]; exact hik) (by rw [hbeta]; exact hik)]
    have hgc : coords.getD i 0 = dotL (pack.Q.col i) x := by
      rw [hco, getD_map_range _ _ _ hik]
    rw [hgu, hgc, mul_comm]
  · simp only [project, matTvec, packC2]
    norm_num [dotL, Mat2.col, List.range_succ]
  · simp only [utilities, packC2]
    norm_num
  · simp only [aggregate, packC2, npDot]
    norm_num [dotL]

end ClaimC2

/-- Witness for C2: the closed form instantiated at the claim's own
hand-constructed pack and input vector. -/
theorem claim_C2_resonance_closed_form_witness :
    packC2.mu = [] ∧ ([3, 1, 0, 0] : List ℚ).length = packC2.d ∧
    (resonance (NpArr.a1 [3, 1, 0, 0]) packC2 =
      .ok (NpArr.a0 (∑ i ∈ Finset.range packC2.Q.cols,
        packC2.weights.getD i 0 *
          (packC2.lambda.getD i 0 * dotL (packC2.Q.col i) [3, 1, 0, 0] +
            packC2.beta.getD i 0))) ∧
     project (NpArr.a1 [3, 1, 0, 0]) packC2 = .ok (NpArr.a1 [3, 1]) ∧
     utilities (NpArr.a1 [3, 1]) packC2 = .ok (NpArr.a1 [61/10, 3/10]) ∧
     aggregate (NpArr.a1 [61/10, 3/10]) packC2 = .ok (NpArr.a0 (378/100))) :=
  ⟨rfl, rfl,
    claim_C2_resonance_closed_form packC2 [3, 1, 0, 0] rfl rfl rfl rfl rfl rfl⟩

section ClaimC5C10

/-- C5: for every Laplacian produced by build_graph — any sequence length,
any max_skip, either weight mode — every signal x and any scales
0 <= tau1 <= tau2, the Dirichlet energy of the diffused signal at tau2 is
at most the energy at tau1 (exact real arithmetic for the spectral
computation). -/
theorem claim_C5_dirichlet_energy_nonincreasing (n maxSkip : ℕ) (mode : WeightMode)
    (x : Fin n → ℝ) (tau1 tau2 : ℝ) (h0 : 0 ≤ tau1) (h12 : tau1 ≤ tau2) :
    dirichletEnergy (build_graph n maxSkip mode).2
      (diffuse1 (build_graph n maxSkip mode).2 x tau2) ≤
    dirichletEnergy (build_graph n maxSkip mode).2
      (diffuse1 (build_graph n maxSkip mode).2 x tau1) := by
  refine energies_antitone _ ?_ ?_ x tau1 tau2 h0 h12
  · exact eighInputMat_of_hermitian _ (laplacian_isHermitian _)
  · exact build_graph_lap_posSemidef n maxSkip mode

/-- Witness for C5 at a concrete graph and signal: n = 2, max_skip = 1,
uniform weights, x = (1, 0), tau from 0 to 1. -/
theorem claim_C5_dirichlet_energy_nonincreasing_witness :
    (0 : ℝ) ≤ 0 ∧ (0 : ℝ) ≤ 1 ∧
    dirichletEnergy (build_graph 2 1 WeightMode.uniform).2
      (diffuse1 (build_graph 2 1 WeightMode.uniform).2 ![1, 0] 1) ≤
    dirichletEnergy (build_graph 2 1 WeightMode.uniform).2
      (diffuse1 (build_graph 2 1 WeightMode.uniform).2 ![1, 0] 0) :=
  ⟨le_refl 0, by norm_num,
    claim_C5_dirichlet_energy_nonincreasing 2 1 WeightMode.uniform ![1, 0] 0 1
      (le_refl 0) (by norm_num)⟩

/-- C10: diffusion at scale zero is the identity: for every symmetric
Laplacian L and every 1-d or 2-d signal, diffuse(L, x, 0.0) = x in exact
real arithmetic, since every eigenvalue weight exp(0) is 1 and the
eigenvector matrix is orthogonal. -/
theorem claim_C10_diffuse_zero_identity (n m : ℕ) (L : Matrix (Fin n) (Fin n) ℝ)
    (hL : L.IsHermitian) (x : Fin n → ℝ) (X : Matrix (Fin n) (Fin m) ℝ) :
    diffuse1 L x 0 = x ∧ diffuse2 L X 0 = X :=
  ⟨diffuse1_zero L x, diffuse2_zero L X⟩

/-- Witness for C10 at a concrete symmetric Laplacian (the zero matrix on
one node) and concrete signals. -/
theorem claim_C10_diffuse_zero_identity_witness :
    (0 : Matrix (Fin 1) (Fin 1) ℝ).IsHermitian ∧
    diffuse1 (0 : Matrix (Fin 1) (Fin 1) ℝ) ![2] 0 = ![2] ∧
    diffuse2 (0 : Matrix (Fin 1) (Fin 1) ℝ) ![![3]] 0 = ![![3]] :=
  ⟨Matrix.isHermitian_zero,
    (claim_C10_diffuse_zero_identity 1 1 0 Matrix.isHermitian_zero ![2] ![![3]]).1,
    (claim_C10_diffuse_zero_identity 1 1 0 Matrix.isHermitian_zero ![2] ![![3]]).2⟩

end ClaimC5C10

section ClaimC9

/-- C9: from_json_obj accepts objects that omit lambda, beta, weights or
mu: with k = len(names), a missing lambda defaults to ones, a missing beta
to zeros, a missing weights to the uniform 1/max(1,k) vector and a missing
mu to the empty capacity, and the pack is validated before being
returned. -/
theorem claim_C9_from_json_defaults (obj : PackJson ℚ) (p : AxisPack ℚ)
    (hok : fromJsonObj obj = .ok p) :
    (obj.lambda = none → p.lambda = List.replicate obj.names.length 1) ∧
    (obj.beta = none → p.beta = List.replicate obj.names.length 0) ∧
    (obj.weights = none → p.weights =
      List.replicate obj.names.length ((1 : ℚ) / ((max 1 obj.names.length : ℕ) : ℚ))) ∧
    (obj.mu = none → p.mu = []) ∧
    validateCheck p = .ok () := by
  simp only [fromJsonObj] at hok
  by_cases hq : obj.Q = []
  · rw [if_pos hq] at hok
    exact absurd hok (by simp)
  rw [if_neg hq] at hok
  by_cases hrect : ∀ r ∈ obj.Q, r.length = (obj.Q.headD []).length
  · rw [if_pos hrect] at hok
    rcases hv : validateCheck (⟨obj.names, ⟨(obj.Q.headD []).length, obj.Q⟩,
        obj.lambda.getD (List.replicate obj.names.length 1),
        obj.beta.getD (List.replicate obj.names.length 0),
        obj.weights.getD (List.replicate obj.names.length
          ((1 : ℚ) / ((max 1 obj.names.length : ℕ) : ℚ))),
        muFromJson (obj.mu.getD [])⟩ : AxisPack ℚ) with e | u <;> rw [hv] at hok
    · exact absurd hok (by simp)
    · rw [except_bindf_ok] at hok
      have hp := Except.ok.inj hok
      subst hp
      refine ⟨fun h => by rw [h]; rfl, fun h => by rw [h]; rfl, fun h => by rw [h]; rfl,
        fun h => by rw [h]; rfl, ?_⟩
      rw [hv]
  · rw [if_neg hrect] at hok
    exact absurd hok (by simp)

end ClaimC9

/-- The concrete serialized object of the C9 witness: names ["a"], Q the
1 x 1 identity, all optional fields absent. -/
def objC9 : PackJson ℚ := ⟨["a"], [[1]], none, none, none, none⟩

/-- The pack that objC9 deserializes to: names ["a"], the 1 x 1 identity
basis, default calibration. -/
def packOne : AxisPack ℚ := ⟨["a"], ⟨1, [[1]]⟩, [1], [0], [1], []⟩

/-- packOne passes validation. -/
theorem validateCheck_packOne : validateCheck packOne = .ok () := by
  rw [validateCheck, if_neg (by decide), if_neg (by decide), if_neg (by decide), if_pos ?hac]
  case hac =>
    intro i hi j hj
    simp only [packOne, AxisPack.k, List.length_singleton] at hi hj
    interval_cases i
    interval_cases j
    norm_num [dotL, Mat2.col, atolV, rtolV, packOne]

/-- Witness for C9: deserializing objC9 succeeds and produces exactly the
documented defaults. -/
theorem claim_C9_from_json_defaults_witness :
    fromJsonObj objC9 = .ok packOne ∧
    ((objC9.lambda = none → packOne.lambda = List.replicate objC9.names.length 1) ∧
     (objC9.beta = none → packOne.beta = List.replicate objC9.names.length 0) ∧
     (objC9.weights = none → packOne.weights =
       List.replicate objC9.names.length ((1 : ℚ) / ((max 1 objC9.names.length : ℕ) : ℚ))) ∧
     (objC9.mu = none → packOne.mu = []) ∧
     validateCheck packOne = .ok ()) := by
  have hac : AllcloseEye (⟨1, [[1]]⟩ : Mat2 ℚ) 1 := by
    intro i hi j hj
    interval_cases i
    interval_cases j
    norm_num [dotL, Mat2.col, atolV, rtolV]
  have hok : fromJsonObj objC9 = .ok packOne := by
    simp only [fromJsonObj, objC9]
    rw [if_neg (by decide), if_pos (by decide)]
    simp only [List.length_singleton, List.headD_cons]
    have hpp : (⟨["a"], ⟨1, [[1]]⟩,
        (none : Option (List ℚ)).getD (List.replicate 1 1),
        (none : Option (List ℚ)).getD (List.replicate 1 0),
        (none : Option (List ℚ)).getD (List.replicate 1 ((1 : ℚ) / ((max 1 1 : ℕ) : ℚ))),
        muFromJson ((none : Option (List (List ℕ × ℚ))).getD [])⟩ : AxisPack ℚ) = packOne := by
      simp only [Option.getD_none, muFromJson, List.filterMap_nil, packOne]
      norm_num
    rw [hpp]
    rw [validateCheck, if_neg (by decide), if_neg (by decide), if_neg (by decide),
      if_pos (by simpa [packOne, AxisPack.k] using hac)]
    rfl
  exact ⟨hok, claim_C9_from_json_defaults objC9 packOne hok⟩

section ClaimC8

variable {α : Type} [LinearOrderedField α]

theorem validateCheck_ok_dest (p : AxisPack α) (h : validateCheck p = .ok ()) :
    Mat2.WF p.Q ∧ p.Q.cols = p.k ∧
    (p.lambda.length = p.k ∧ p.beta.length = p.k ∧ p.weights.length = p.k) ∧
    AllcloseEye p.Q p.k := by
  rw [validateCheck] at h
  split_ifs at h with h1 h2 h3 h4
  exact ⟨h1, not_ne_iff.1 h2, h3, h4⟩

theorem validateCheck_ok_of (p : AxisPack α) (hwf : Mat2.WF p.Q)
    (hcols : p.Q.cols = p.k)
    (hlen : p.lambda.length = p.k ∧ p.beta.length = p.k ∧ p.weights.length = p.k)
    (hac : AllcloseEye p.Q p.k) : validateCheck p = .ok () := by
  rw [validateCheck, if_neg (not_not.2 hwf), if_neg (not_ne_iff.2 hcols),
    if_neg (not_not.2 hlen), if_pos hac]

/-- validateCheck never reads the mu field. -/
theorem validateCheck_mu_irrel (nm : List String) (Q : Mat2 α) (lam bet wts : List α)
    (mu1 mu2 : List (Finset ℕ × α)) :
    validateCheck (⟨nm, Q, lam, bet, wts, mu1⟩ : AxisPack α) =
    validateCheck (⟨nm, Q, lam, bet, wts, mu2⟩ : AxisPack α) := rfl

/-- C8 (amended): for every AxisPack with at least one row of Q that passes
validation, load(save(pack)) — to_json_obj followed by from_json_obj, the
file I/O being the identity on the exact numbers — succeeds, reproduces
names, Q, lambda, beta and weights exactly, and re-runs validation
(including the orthonormality check) successfully.  The degenerate d = 0
pack is excluded: its serialized Q is the empty list, which np.array turns
into a 1-d array, so validation on load fails (see the counterexample). -/
theorem claim_C8_round_trip_amended (p : AxisPack ℚ) (hval : validateCheck p = .ok ())
    (hne : p.Q.rows ≠ []) :
    roundTrip p =
      .ok (⟨p.names, p.Q, p.lambda, p.beta, p.weights, muFromJson (muToJson p.mu)⟩ :
        AxisPack ℚ) ∧
    validateCheck
      (⟨p.names, p.Q, p.lambda, p.beta, p.weights, muFromJson (muToJson p.mu)⟩ :
        AxisPack ℚ) = .ok () := by
  obtain ⟨nm, ⟨qc, qr⟩, lam, bet, wts, mu⟩ := p
  obtain ⟨hwf, hcols, hlen, hac⟩ := validateCheck_ok_dest _ hval
  have hval2 : validateCheck
      (⟨nm, ⟨qc, qr⟩, lam, bet, wts, muFromJson (muToJson mu)⟩ : AxisPack ℚ) = .ok () := by
    rw [validateCheck_mu_irrel nm ⟨qc, qr⟩ lam bet wts (muFromJson (muToJson mu)) mu]
    exact hval
  refine ⟨?_, hval2⟩
  rw [roundTrip, toJsonObj, hval, except_bindf_ok, except_bindf_ok]
  cases hq : qr with
  | nil => exact absurd hq hne
  | cons r0 rest =>
    subst hq
    have hr0 : r0.length = qc := hwf r0 (by simp)
    simp only [fromJsonObj]
    rw [if_neg (by simp), if_pos ?hrect]
    case hrect =>
      intro r hr
      simp only [List.headD_cons]
      rw [hwf r hr, hr0]
    simp only [Option.getD_some, List.headD_cons]
    rw [hr0, hval2, except_bindf_ok]

end ClaimC8

/-- Witness for C8 at the concrete validated pack packOne. -/
theorem claim_C8_round_trip_amended_witness :
    validateCheck packOne = .ok () ∧ packOne.Q.rows ≠ [] ∧
    (roundTrip packOne = .ok ⟨packOne.names, packOne.Q, packOne.lambda, packOne.beta,
        packOne.weights, muFromJson (muToJson packOne.mu)⟩ ∧
     validateCheck (⟨packOne.names, packOne.Q, packOne.lambda, packOne.beta,
        packOne.weights, muFromJson (muToJson packOne.mu)⟩ : AxisPack ℚ) = .ok ()) :=
  ⟨validateCheck_packOne, by decide,
    claim_C8_round_trip_amended packOne validateCheck_packOne (by decide)⟩

/-- The degenerate AxisPack with no axes and an empty 0 x 0 basis. -/
def packEmpty : AxisPack ℚ := ⟨[], ⟨0, []⟩, [], [], [], []⟩

/-- Counterexample to C8 as stated: packEmpty passes validation (its Q is
a (0,0) float array, Q^T Q is the empty matrix and allclose holds
vacuously), yet load(save(packEmpty)) fails: Q serializes to [], which
np.array reads back as a 1-d array of shape (0,), so the ndim == 2 assert
of validate raises on load. -/
theorem claim_C8_round_trip_counterexample :
    validateCheck packEmpty = .ok () ∧ roundTrip packEmpty = .error .assertFail :=
  ⟨rfl, rfl⟩

section ClaimC7

variable {α : Type} [LinearOrderedField α]

theorem expandLeftGo_le (s : List α) (t : α) (fuel start : ℕ) :
    expandLeftGo s t fuel start ≤ start := by
  induction fuel generalizing start with
  | zero => exact le_refl start
  | succ f ih =>
    rw [expandLeftGo]
    split
    · exact le_trans (ih (start - 1)) (Nat.sub_le start 1)
    · exact le_refl start

theorem expandLeftGo_ge (s : List α) (t : α) (fuel start : ℕ) :
    start - fuel ≤ expandLeftGo s t fuel start := by
  induction fuel generalizing start with
  | zero => simp [expandLeftGo]
  | succ f ih =>
    rw [expandLeftGo]
    split
    · exact le_trans (by omega) (ih (start - 1))
    · omega

theorem expandLeftGo_thresh (s : List α) (t : α) (fuel start : ℕ) (i : ℕ)
    (h1 : expandLeftGo s t fuel start ≤ i) (h2 : i < start) : t ≤ s.getD i 0 := by
  induction fuel generalizing start with
  | zero => simp only [expandLeftGo] at h1; omega
  | succ f ih =>
    by_cases hc : 1 ≤ start ∧ t ≤ s.getD (start - 1) 0
    · rw [expandLeftGo, if_pos hc] at h1
      by_cases hi : i < start - 1
      · exact ih (start - 1) h1 hi
      · have hie : i = start - 1 := by omega
        rw [hie]
        exact hc.2
    · rw [expandLeftGo, if_neg hc] at h1
      omega

theorem expandRightGo_ge (s : List α) (t : α) (n fuel e : ℕ) :
    e ≤ expandRightGo s t n fuel e := by
  induction fuel generalizing e with
  | zero => exact le_refl e
  | succ f ih =>
    rw [expandRightGo]
    split
    · exact le_trans (by omega) (ih (e + 1))
    · exact le_refl e

theorem expandRightGo_le (s : List α) (t : α) (n fuel e : ℕ) :
    expandRightGo s t n fuel e ≤ e + fuel := by
  induction fuel generalizing e with
  | zero => simp [expandRightGo]
  | succ f ih =>
    rw [expandRightGo]
    split
    · exact le_trans (ih (e + 1)) (by omega)
    · omega

theorem expandRightGo_thresh (s : List α) (t : α) (n fuel e : ℕ) (i : ℕ)
    (h1 : e ≤ i) (h2 : i < expandRightGo s t n fuel e) : t ≤ s.getD i 0 := by
  induction fuel generalizing e with
  | zero => simp only [expandRightGo] at h2; omega
  | succ f ih =>
    by_cases hc : e < n ∧ t ≤ s.getD e 0
    · rw [expandRightGo, if_pos hc] at h2
      by_cases hi : e + 1 ≤ i
      · exact ih (e + 1) hi h2
      · have hie : i = e := by omega
        rw [hie]
        exact hc.2
    · rw [expandRightGo, if_neg hc] at h2
      omega

end ClaimC7

section ClaimC7b

variable {α : Type} [LinearOrderedField α]

/-- The behaviour of one _expand_arg call around a center: the span
contains the center, every other token in it clears the threshold, the
leftward growth is bounded by max_len - 1 and the rightward growth by
max_len. -/
def ExpandSpec (s : List α) (c maxLen : ℕ) (t : α) (sp : ℕ × ℕ) : Prop :=
  sp.1 ≤ c ∧ c < sp.2 ∧
  (∀ i, sp.1 ≤ i → i < c → t ≤ s.getD i 0) ∧
  (∀ i, c < i → i < sp.2 → t ≤ s.getD i 0) ∧
  c - sp.1 ≤ maxLen - 1 ∧ sp.2 - (c + 1) ≤ maxLen

theorem expandArg_spec (s : List α) (c maxLen : ℕ) (t : α) :
    ExpandSpec s c maxLen t (expandArg s c maxLen t) := by
  have hL := expandLeftGo_le s t (maxLen - 1) c
  have hLg := expandLeftGo_ge s t (maxLen - 1) c
  have hRg := expandRightGo_ge s t s.length maxLen (c + 1)
  have hRl := expandRightGo_le s t s.length maxLen (c + 1)
  unfold ExpandSpec expandArg
  dsimp only
  exact ⟨hL, by omega, fun i h1 h2 => expandLeftGo_thresh s t (maxLen - 1) c i h1 h2,
    fun i h1 h2 => expandRightGo_thresh s t s.length maxLen (c + 1) i (by omega) h2,
    by omega, by omega⟩

end ClaimC7b

section ClaimC7c

variable {α : Type} [LinearOrderedField α]

theorem build_frames_ok (X : NpArr α) (pack : AxisPack α) (st ab : α) (mal : ℕ)
    (dbg : Bool) (rm : String) (de dc : Bool) (tt : Option (List String))
    (frames : List (Frame α))
    (hfr : build_frames X pack st ab mal dbg rm de dc tt = .ok frames) :
    ∃ s n0, token_saliency X pack = .ok (.a1 s) ∧ shape0 X = .ok n0 ∧
      frames = ((localMaxima s).filter (fun i => st ≤ s.getD i 0)).map
        (mkFrame s n0 ((localMaxima s).filter (fun i => st ≤ s.getD i 0)) ab mal dbg rm
          de dc tt) := by
  rcases hts : token_saliency X pack with e | arr
  · rw [build_frames] at hfr
    rw [hts] at hfr
    simp at hfr
  cases arr with
  | a0 v =>
    rw [build_frames, hts] at hfr
    simp [asList1] at hfr
  | a2 M =>
    rw [build_frames, hts] at hfr
    simp [asList1] at hfr
  | a1 s =>
    rcases hn : shape0 X with e | n0
    · rw [build_frames, hts] at hfr
      simp [asList1, detect_predicates, hts, hn] at hfr
    · refine ⟨s, n0, rfl, rfl, ?_⟩
      rw [build_frames, hts] at hfr
      simp [asList1, detect_predicates, hts, hn] at hfr
      simp only [List.getD_eq_getElem?_getD]
      exact hfr.symm

/-- C7 (amended): each frame's argument spans are produced by _expand_arg
seeded at the clamped neighbours p-1 and p+1 of the predicate; each such
span always contains its seed token (no threshold test is applied to it),
may extend to both sides of the seed — in particular across p — and every
token of the span other than the seed has saliency >= arg_band * s_p; the
leftward growth from the seed is bounded by max_arg_len - 1 tokens and the
rightward growth by max_arg_len tokens. -/
theorem claim_C7_arg_spans_amended (X : NpArr α) (pack : AxisPack α)
    (st ab : α) (mal : ℕ) (dbg : Bool) (rm : String) (de dc : Bool)
    (tt : Option (List String)) (frames : List (Frame α)) (fr : Frame α)
    (hfr : build_frames X pack st ab mal dbg rm de dc tt = .ok frames)
    (hmem : fr ∈ frames) :
    ∃ s : List α, ∃ n0 p : ℕ,
      token_saliency X pack = .ok (.a1 s) ∧ shape0 X = .ok n0 ∧
      fr.predicate = (p, p + 1) ∧ fr.score = s.getD p 0 ∧
      ExpandSpec s (p - 1) mal (ab * s.getD p 0)
        (expandArg s (p - 1) mal (ab * s.getD p 0)) ∧
      ExpandSpec s (min (n0 - 1) (p + 1)) mal (ab * s.getD p 0)
        (expandArg s (min (n0 - 1) (p + 1)) mal (ab * s.getD p 0)) ∧
      (rm = "lr" →
        fr.roles.lookup "arg_left" =
          some (expandArg s (p - 1) mal (ab * s.getD p 0)) ∧
        fr.roles.lookup "arg_right" =
          some (expandArg s (min (n0 - 1) (p + 1)) mal (ab * s.getD p 0))) := by
  obtain ⟨s, n0, hts, hn0, hfs⟩ := build_frames_ok X pack st ab mal dbg rm de dc tt
    frames hfr
  subst hfs
  obtain ⟨p, hp, hfr2⟩ := List.mem_map.1 hmem
  subst hfr2
  refine ⟨s, n0, p, hts, hn0, rfl, rfl, expandArg_spec _ _ _ _, expandArg_spec _ _ _ _, ?_⟩
  intro hrm
  subst hrm
  have hL := expandArg_spec s (p - 1) mal (ab * s.getD p 0)
  have hR := expandArg_spec s (min (n0 - 1) (p + 1)) mal (ab * s.getD p 0)
  have hLpos : 0 < (expandArg s (p - 1) mal (ab * s.getD p 0)).2 -
      (expandArg s (p - 1) mal (ab * s.getD p 0)).1 := by
    obtain ⟨h1, h2, -⟩ := hL
    omega
  have hRpos : 0 < (expandArg s (min (n0 - 1) (p + 1)) mal (ab * s.getD p 0)).2 -
      (expandArg s (min (n0 - 1) (p + 1)) mal (ab * s.getD p 0)).1 := by
    obtain ⟨h1, h2, -⟩ := hR
    omega
  simp only [mkFrame, assignRoles, if_neg (by decide : ¬ ("lr" : String) = "agent_patient"),
    if_pos hLpos, if_pos hRpos]
  simp [List.lookup]

end ClaimC7c

/-- Concrete evaluation of build_frames on three tokens of constant
saliency 1 with the 1-axis identity pack: every index is a predicate and
every argument span is (0, 3). -/
theorem build_frames_const_eval :
    build_frames (NpArr.a2 ⟨1, [[1], [1], [1]]⟩) packOne 0 (1/2) 3 false "lr" false
        false none =
      .ok [⟨"f0", (0, 1), [("arg_left", (0, 3)), ("arg_right", (0, 3))], 1, none⟩,
           ⟨"f1", (1, 2), [("arg_left", (0, 3)), ("arg_right", (0, 3))], 1, none⟩,
           ⟨"f2", (2, 3), [("arg_left", (0, 3)), ("arg_right", (0, 3))], 1, none⟩] := by
  have hsal : token_saliency (NpArr.a2 ⟨1, [[1], [1], [1]]⟩) packOne =
      .ok (NpArr.a1 [1, 1, 1]) := by
    simp only [token_saliency, resonance, project, matMul2, utilities, aggregate,
      packOne, npDot]
    norm_num [dotL, Mat2.col, List.range_succ]
  have hlm : localMaxima ([1, 1, 1] : List ℚ) = [0, 1, 2] := by
    norm_num [localMaxima, List.range_succ, List.filter_append, List.filter_cons,
      List.filter_nil, decide_eq_true_eq]
  have hL0 : expandArg ([1, 1, 1] : List ℚ) 0 3 (1/2) = (0, 3) := by
    norm_num [expandArg, expandLeftGo, expandRightGo]
  have hL1 : expandArg ([1, 1, 1] : List ℚ) 1 3 (1/2) = (0, 3) := by
    norm_num [expandArg, expandLeftGo, expandRightGo]
  have hL2 : expandArg ([1, 1, 1] : List ℚ) 2 3 (1/2) = (0, 3) := by
    norm_num [expandArg, expandLeftGo, expandRightGo]
  rw [build_frames, hsal]
  simp only [except_bind_ok, asList1, detect_predicates, hsal]
  norm_num [shape0, hlm, mkFrame, assignRoles, detectorRoles, hL0, hL1, hL2,
    List.getD_cons_zero, List.getD_cons_succ, decide_eq_true_eq]
  decide

/-- Counterexample to C7 as stated: on three tokens of constant saliency 1
(token vectors [[1],[1],[1]], the 1-axis identity pack), the predicate at
p = 0 receives the left argument span (0, 3) — it contains p itself and
tokens to the right of p, not only tokens at indices < p; likewise the
frame at p = 1 has arg_left = (0, 3), which contains p = 1 and p + 1 = 2.
The spans are grown bidirectionally from the clamped seeds max(0, p-1) and
min(n-1, p+1), the seed being included without any threshold test. -/
theorem claim_C7_arg_spans_counterexample :
    build_frames (NpArr.a2 ⟨1, [[1], [1], [1]]⟩) packOne 0 (1/2) 3 false "lr" false
        false none =
      .ok [⟨"f0", (0, 1), [("arg_left", (0, 3)), ("arg_right", (0, 3))], 1, none⟩,
           ⟨"f1", (1, 2), [("arg_left", (0, 3)), ("arg_right", (0, 3))], 1, none⟩,
           ⟨"f2", (2, 3), [("arg_left", (0, 3)), ("arg_right", (0, 3))], 1, none⟩] ∧
    ¬ ((0, 3) : ℕ × ℕ).2 ≤ 0 :=
  ⟨build_frames_const_eval, by omega⟩

/-- Witness for the amended C7 at the same concrete input, for the frame
at p = 0. -/
theorem claim_C7_arg_spans_amended_witness :
    build_frames (NpArr.a2 ⟨1, [[1], [1], [1]]⟩) packOne 0 (1/2) 3 false "lr" false
        false none =
      .ok [⟨"f0", (0, 1), [("arg_left", (0, 3)), ("arg_right", (0, 3))], 1, none⟩,
           ⟨"f1", (1, 2), [("arg_left", (0, 3)), ("arg_right", (0, 3))], 1, none⟩,
           ⟨"f2", (2, 3), [("arg_left", (0, 3)), ("arg_right", (0, 3))], 1, none⟩] ∧
    (∃ s : List ℚ, ∃ n0 p : ℕ,
      token_saliency (NpArr.a2 ⟨1, [[1], [1], [1]]⟩) packOne = .ok (.a1 s) ∧
      shape0 (NpArr.a2 ⟨1, [[1], [1], [1]]⟩) = .ok n0 ∧
      (⟨"f0", (0, 1), [("arg_left", (0, 3)), ("arg_right", (0, 3))], 1, none⟩ :
        Frame ℚ).predicate = (p, p + 1) ∧
      (⟨"f0", (0, 1), [("arg_left", (0, 3)), ("arg_right", (0, 3))], 1, none⟩ :
        Frame ℚ).score = s.getD p 0 ∧
      ExpandSpec s (p - 1) 3 (1/2 * s.getD p 0)
        (expandArg s (p - 1) 3 (1/2 * s.getD p 0)) ∧
      ExpandSpec s (min (n0 - 1) (p + 1)) 3 (1/2 * s.getD p 0)
        (expandArg s (min (n0 - 1) (p + 1)) 3 (1/2 * s.getD p 0)) ∧
      (("lr" : String) = "lr" →
        (⟨"f0", (0, 1), [("arg_left", (0, 3)), ("arg_right", (0, 3))], 1, none⟩ :
          Frame ℚ).roles.lookup "arg_left" =
            some (expandArg s (p - 1) 3 (1/2 * s.getD p 0)) ∧
        (⟨"f0", (0, 1), [("arg_left", (0, 3)), ("arg_right", (0, 3))], 1, none⟩ :
          Frame ℚ).roles.lookup "arg_right" =
            some (expandArg s (min (n0 - 1) (p + 1)) 3 (1/2 * s.getD p 0)))) :=
  ⟨build_frames_const_eval,
    claim_C7_arg_spans_amended (NpArr.a2 ⟨1, [[1], [1], [1]]⟩) packOne 0 (1/2) 3 false
      "lr" false false none _
      ⟨"f0", (0, 1), [("arg_left", (0, 3)), ("arg_right", (0, 3))], 1, none⟩
      build_frames_const_eval (by simp)⟩

section ClaimC3

variable {α : Type} [LinearOrderedField α]

theorem exceptMapM_length {e b c : Type} (f : b → Except e c) (l : List b) (ys : List c)
    (h : l.mapM f = .ok ys) : ys.length = l.length := by
  induction l generalizing ys with
  | nil =>
    simp only [List.mapM_nil] at h
    cases h
    rfl
  | cons x xs ih =>
    rw [List.mapM_cons] at h
    rcases hx : f x with ex | y <;> rw [hx] at h
    · simp at h
    rcases hxs : xs.mapM f with exs | ys2 <;> rw [hxs] at h
    · simp at h
    simp only [except_bind_ok, except_pure] at h
    cases h
    simp [ih ys2 hxs]

theorem basic_build_ok (qr : Mat2 α → Mat2 α)
    (seeds : List (String × (List (List α) × List (List α))))
    (li bi : α) (wi : Option (List α)) (pack : AxisPack α)
    (h : build_axis_pack_from_vectors qr seeds li bi wi = .ok pack) :
    ∃ A : Mat2 α, A.cols = pack.k ∧ pack.names = seeds.map Prod.fst ∧ pack.Q = qr A := by
  rw [build_axis_pack_from_vectors] at h
  by_cases hz : (seeds.map Prod.fst).length = 0
  · rw [if_pos hz] at h
    exact Except.noConfusion h
  rw [if_neg hz] at h
  rcases hvs : seeds.mapM (fun s => diff_of_means s.2.1 s.2.2) with e | vs <;>
    rw [hvs] at h
  · exact Except.noConfusion h
  rw [except_bindf_ok] at h
  by_cases hrect : ∀ v ∈ vs, v.length = (vs.headD []).length
  · rw [if_neg (not_not_intro hrect)] at h
    have hlen : vs.length = (seeds.map Prod.fst).length := by
      rw [exceptMapM_length _ seeds vs hvs, List.length_map]
    cases wi with
    | none =>
      simp only [] at h
      rw [except_bindf_ok] at h
      cases h
      exact ⟨⟨vs.length, (List.range (vs.headD []).length).map
        (fun i => vs.map (fun v => v.getD i 0))⟩, hlen, rfl, rfl⟩
    | some w =>
      simp only [] at h
      by_cases hwl : w.length = (seeds.map Prod.fst).length
      · rw [if_pos hwl] at h
        rw [except_bindf_ok] at h
        cases h
        exact ⟨⟨vs.length, (List.range (vs.headD []).length).map
          (fun i => vs.map (fun v => v.getD i 0))⟩, hlen, rfl, rfl⟩
      · rw [if_neg hwl] at h
        rw [except_bindf_err] at h
        exact Except.noConfusion h
  · rw [if_pos hrect] at h
    exact Except.noConfusion h

theorem bind_validate_ok {p q : AxisPack α}
    (h : (validateCheck p).bind (fun _ => Except.ok p) = .ok q) :
    validateCheck q = .ok () := by
  rcases hv : validateCheck p with e | u
  · rw [hv] at h
    exact Except.noConfusion h
  · rw [hv] at h
    simp only [except_bindf_ok] at h
    cases h
    cases u
    exact hv

theorem finishValidated_eval {p q : AxisPack α} (hpq : p = q)
    (hv : validateCheck q = .ok ()) : finishValidated p = .ok q := by
  subst hpq
  rw [finishValidated, hv, except_bindf_ok]

theorem advFinish_ok (qOrtho : Mat2 ℝ) (processed : List (String × List ℝ))
    (D : ℕ) (li bi : ℝ) (wi : Option (List ℝ)) (names : List String)
    (pack : AxisPack ℝ) (h : advFinish qOrtho processed D li bi wi names = .ok pack) :
    validateCheck pack = .ok () := by
  rw [advFinish] at h
  split_ifs at h <;>
    first
      | exact Except.noConfusion h
      | (rw [finishValidated] at h; exact bind_validate_ok h)

theorem advanced_build_ok (whitener : Mat2 ℝ → List ℝ × Mat2 ℝ)
    (lda : List (List ℝ) → List (List ℝ) → Option (List ℝ))
    (uw ul ortho : Bool) (qr : Mat2 ℝ → Mat2 ℝ)
    (seeds : List (String × (List (List ℝ) × List (List ℝ))))
    (li bi : ℝ) (wi : Option (List ℝ)) (pack : AxisPack ℝ)
    (h : advanced_build whitener lda uw ul ortho qr seeds li bi wi = .ok pack) :
    validateCheck pack = .ok () := by
  rw [advanced_build.eq_def] at h
  split at h
  · exact Except.noConfusion h
  · split_ifs at h <;>
      first
        | exact Except.noConfusion h
        | exact advFinish_ok _ _ _ _ _ _ _ _ h

/-- A routine satisfying QRContract: it returns the first min(d, c) standard
basis columns of the d-dimensional space.  The contract constrains only the
shape and the orthonormality of the output, which is all the basic builder
guarantees about np.linalg.qr, so this serves as a concrete instance. -/
def qrStd (A : Mat2 α) : Mat2 α :=
  ⟨min A.rows.length A.cols,
   (List.range A.rows.length).map (fun i =>
     (List.range (min A.rows.length A.cols)).map (fun j => if i = j then (1 : α) else 0))⟩

theorem qrStd_contract : QRContract (qrStd (α := α)) := by
  intro A
  refine ⟨rfl, by simp [qrStd], ?_, ?_⟩
  · intro r hr
    simp only [qrStd, List.mem_map, List.mem_range] at hr
    obtain ⟨i, hi, rfl⟩ := hr
    simp [qrStd]
  · intro i hi j hj
    have hcol : ∀ t, t < (qrStd A).cols → Mat2.col (qrStd A) t =
        (List.range A.rows.length).map (fun s => if s = t then (1 : α) else 0) := by
      intro t ht
      simp only [qrStd, Mat2.col, List.map_map]
      refine List.map_congr_left (fun a ha => ?_)
      simp only [Function.comp]
      exact getD_map_range _ _ _ ht
    have hi' : i < A.rows.length :=
      lt_of_lt_of_le hi (by simp [qrStd, Nat.min_le_left])
    rw [hcol i hi, hcol j hj, dotL_eq_sum]
    simp only [List.length_map, List.length_range, Nat.min_self]
    have hterm : ∀ t ∈ Finset.range A.rows.length,
        ((List.range A.rows.length).map (fun s => if s = i then (1 : α) else 0)).getD t 0 *
        ((List.range A.rows.length).map (fun s => if s = j then (1 : α) else 0)).getD t 0 =
        if t = i then (if i = j then (1 : α) else 0) else 0 := by
      intro t ht
      rw [Finset.mem_range] at ht
      rw [getD_map_range _ _ _ ht, getD_map_range _ _ _ ht]
      by_cases h1 : t = i
      · subst h1
        by_cases h2 : t = j
        · subst h2
          simp
        · simp [h2, if_neg h2]
      · simp [h1]
    rw [Finset.sum_congr rfl hterm, Finset.sum_ite_eq' (Finset.range A.rows.length) i
      (fun _ => if i = j then (1 : α) else 0), if_pos (Finset.mem_range.2 hi')]

theorem meanVec_one : meanVec ([[(1 : ℚ)]]) = .ok [1] := by
  simp [meanVec, meanL, List.range_succ]

theorem meanVec_zero : meanVec ([[(0 : ℚ)]]) = .ok [0] := by
  simp [meanVec, meanL, List.range_succ]

theorem diff_of_means_eval : diff_of_means ([[(1 : ℚ)]]) [[0]] = .ok [1] := by
  rw [diff_of_means, meanVec_one, meanVec_zero]
  simp only [except_bind_ok]
  norm_num

/-- The basic builder on two identical one-dimensional seeds: d = 1, k = 2. -/
def packC3 : AxisPack ℚ := ⟨["a", "b"], ⟨1, [[1]]⟩, [1, 1], [1, 1], [1/2, 1/2], []⟩

/-- The basic builder on one one-dimensional seed: d = 1, k = 1. -/
def pack1C3 : AxisPack ℚ := ⟨["a"], ⟨1, [[1]]⟩, [1], [1], [1], []⟩

theorem basic_build_eval2 :
    build_axis_pack_from_vectors (qrStd (α := ℚ))
      [("a", ([[1]], [[0]])), ("b", ([[1]], [[0]]))] 1 1 none = .ok packC3 := by
  have hmapM : ([("a", ([[(1 : ℚ)]], [[0]])), ("b", ([[1]], [[0]]))]).mapM
      (fun s => diff_of_means s.2.1 s.2.2) = .ok [[1], [1]] := by
    simp only [List.mapM_cons, List.mapM_nil, diff_of_means_eval, except_bind_ok,
      except_pure]
  rw [build_axis_pack_from_vectors]
  rw [if_neg (by simp)]
  rw [hmapM, except_bindf_ok]
  rw [if_neg (by simp)]
  simp only []
  rw [except_bindf_ok]
  norm_num [packC3, qrStd, List.range_succ, List.replicate]

theorem basic_build_eval1 :
    build_axis_pack_from_vectors (qrStd (α := ℚ))
      [("a", ([[1]], [[0]]))] 1 1 none = .ok pack1C3 := by
  have hmapM : ([("a", ([[(1 : ℚ)]], [[0]]))]).mapM
      (fun s => diff_of_means s.2.1 s.2.2) = .ok [[1]] := by
    simp only [List.mapM_cons, List.mapM_nil, diff_of_means_eval, except_bind_ok,
      except_pure]
  rw [build_axis_pack_from_vectors]
  rw [if_neg (by simp)]
  rw [hmapM, except_bindf_ok]
  rw [if_neg (by simp)]
  simp only []
  rw [except_bindf_ok]
  norm_num [pack1C3, qrStd, List.range_succ, List.replicate]

/-- The advanced builder on one seed with whitening and orthogonalization
off and a trivial injected LDA direction. -/
noncomputable def packAdvC3 : AxisPack ℝ := ⟨["a"], ⟨1, [[1]]⟩, [1], [1], [1], []⟩

theorem normE_one : normE [(1 : ℝ)] = 1 := by
  rw [normE]
  norm_num

theorem processAxis_eval :
    processAxis true (fun _ _ => some [(1 : ℝ)]) [0] (eyeM 1) 1 [[1]] [[0]] =
      some [1] := by
  rw [processAxis]
  norm_num [normE_one, List.mapM.loop, vecMat, eyeM, dotL, List.range_succ,
    Mat2.col, List.replicate, Except.toOption]

theorem advanced_build_eval :
    advanced_build (fun _ => ([], ⟨0, []⟩)) (fun _ _ => some [(1 : ℝ)]) false true false
      (fun M => M) [("a", ([[1]], [[0]]))] 1 1 none = .ok packAdvC3 := by
  have hproc : advProcessed (fun _ => ([], ⟨0, []⟩)) (fun _ _ => some [(1 : ℝ)])
      false true [("a", ([[1]], [[0]]))] 1 = [("a", [1])] := by
    rw [advProcessed]
    norm_num [advMuWhit, processAxis_eval, List.filterMap_cons, List.filterMap_nil]
  rw [advanced_build.eq_def]
  simp only []
  have hD : advD (("a", ([[(1 : ℝ)]], [[0]]))) = 1 := rfl
  rw [hD, hproc]
  rw [if_neg (by simp)]
  rw [if_neg (by simp)]
  rw [advFinish]
  have hq : advQOrtho false (fun M => M) ([("a", [(1 : ℝ)])].map Prod.snd) 1 =
      ⟨1, [[1]]⟩ := by
    rw [advQOrtho, if_neg (by simp), advQMat]
    norm_num [List.range_succ]
  rw [hq]
  rw [if_neg (by simp)]
  rw [if_neg (by simp)]
  rw [if_neg (not_not_intro (by
    intro j hj
    have hj' : j < 1 := hj
    interval_cases j
    have hc : Mat2.col (⟨1, [[1]]⟩ : Mat2 ℝ) 0 = [1] := rfl
    rw [hc, normE_one]
    norm_num [atolV, rtolV]))]
  have hvc : validateCheck packAdvC3 = .ok () := by
    refine validateCheck_ok_of _ ?_ rfl ⟨rfl, rfl, rfl⟩ ?_
    · intro r hr
      simp only [packAdvC3] at hr
      simp at hr
      subst hr
      rfl
    · intro i hi j hj
      simp only [packAdvC3, AxisPack.k, List.length_singleton] at hi hj
      interval_cases i
      interval_cases j
      simp only [if_pos rfl]
      have hc : Mat2.col (⟨1, [[1]]⟩ : Mat2 ℝ) 0 = [1] := rfl
      norm_num [packAdvC3, hc, dotL, atolV, rtolV]
  exact finishValidated_eval (by norm_num [packAdvC3, advWeights, List.replicate]) hvc

/-- C3 (amended).  Basic builder: for every QR routine meeting the reduced-QR
contract, every returned pack whose axis count k is at most its embedding
dimension d has a Q with exactly k columns whose Gram matrix deviates from
I_k by strictly less than 1e-5 (the deviation is exactly zero).  Advanced
builder: every returned pack passed the validate gate, so every Gram entry
is within np.allclose tolerance of I_k: at most 1e-5 off the diagonal and
at most 2e-5 on it — a non-strict bound, not the claimed strict one, and
for the basic builder with k > d the returned Q has only d < k columns, so
no k-column orthonormality holds at all. -/
theorem claim_C3_orthonormality_amended :
    (∀ (qr : Mat2 ℚ → Mat2 ℚ), QRContract qr →
      ∀ seeds li bi wi (pack : AxisPack ℚ),
        build_axis_pack_from_vectors qr seeds li bi wi = .ok pack →
        pack.k ≤ pack.d →
        pack.Q.cols = pack.k ∧
        ∀ i < pack.k, ∀ j < pack.k,
          |dotL (pack.Q.col i) (pack.Q.col j) - (if i = j then (1 : ℚ) else 0)| < atolV) ∧
    (∀ whitener lda uw ul ortho (qr : Mat2 ℝ → Mat2 ℝ) seeds li bi wi (pack : AxisPack ℝ),
        advanced_build whitener lda uw ul ortho qr seeds li bi wi = .ok pack →
        ∀ i < pack.k, ∀ j < pack.k,
          |dotL (pack.Q.col i) (pack.Q.col j) - (if i = j then (1 : ℝ) else 0)| ≤
            atolV + rtolV * (if i = j then (1 : ℝ) else 0)) := by
  constructor
  · intro qr hqr seeds li bi wi pack hbuild hkd
    obtain ⟨A, hAc, hnames, hQ⟩ := basic_build_ok qr seeds li bi wi pack hbuild
    obtain ⟨hc, hr, hwf, horth⟩ := hqr A
    have hd : pack.d = A.rows.length := by
      rw [AxisPack.d, hQ, hr]
    have hcols : pack.Q.cols = pack.k := by
      rw [hQ, hc, hAc, min_eq_right]
      rw [hd] at hkd
      exact hkd
    refine ⟨hcols, fun i hi j hj => ?_⟩
    rw [hQ] at hcols ⊢
    rw [horth i (by rw [hcols]; exact hi) j (by rw [hcols]; exact hj), sub_self, abs_zero]
    rw [atolV]
    norm_num
  · intro whitener lda uw ul ortho qr seeds li bi wi pack hbuild
    have hv := advanced_build_ok whitener lda uw ul ortho qr seeds li bi wi pack hbuild
    exact (validateCheck_ok_dest pack hv).2.2.2

/-- C3 counterexample.  The basic builder with two one-dimensional seeds
(k = 2 > d = 1) and a contract-satisfying QR returns a pack with two axis
names but a Q with a single column: `Q^T Q - I_k` in the claimed k = 2 sense
does not exist as a 2 x 2 identity deviation — the missing column reads as
zeros, whose diagonal Gram entry deviates from 1 by 1, far above 1e-5. -/
theorem claim_C3_orthonormality_counterexample :
    QRContract (qrStd (α := ℚ)) ∧
    build_axis_pack_from_vectors (qrStd (α := ℚ))
      [("a", ([[1]], [[0]])), ("b", ([[1]], [[0]]))] 1 1 none = .ok packC3 ∧
    packC3.k = 2 ∧ packC3.Q.cols = 1 ∧
    ¬ (∀ i < packC3.k, ∀ j < packC3.k,
        |dotL (packC3.Q.col i) (packC3.Q.col j) - (if i = j then (1 : ℚ) else 0)| < atolV) := by
  refine ⟨qrStd_contract, basic_build_eval2, rfl, rfl, fun hall => ?_⟩
  have h11 := hall 1 (by decide) 1 (by decide)
  rw [if_pos rfl] at h11
  have hcol : Mat2.col packC3.Q 1 = [0] := by
    rw [packC3]
    rfl
  rw [hcol] at h11
  have : dotL ([(0 : ℚ)]) [0] = 0 := by
    rw [dotL]
    norm_num
  rw [this, zero_sub, abs_neg, abs_one, atolV] at h11
  norm_num at h11

/-- C3 witness: the amended theorem applied to concrete runs of both
builders — the basic builder on one seed with the standard-basis QR, and the
advanced builder on one seed with trivial injected routines. -/
theorem claim_C3_orthonormality_amended_witness :
    (pack1C3.Q.cols = pack1C3.k ∧
      ∀ i < pack1C3.k, ∀ j < pack1C3.k,
        |dotL (pack1C3.Q.col i) (pack1C3.Q.col j) - (if i = j then (1 : ℚ) else 0)| < atolV) ∧
    (∀ i < packAdvC3.k, ∀ j < packAdvC3.k,
        |dotL (packAdvC3.Q.col i) (packAdvC3.Q.col j) - (if i = j then (1 : ℝ) else 0)| ≤
          atolV + rtolV * (if i = j then (1 : ℝ) else 0)) :=
  ⟨claim_C3_orthonormality_amended.1 qrStd qrStd_contract
      [("a", ([[1]], [[0]]))] 1 1 none pack1C3 basic_build_eval1 (by decide),
   claim_C3_orthonormality_amended.2 (fun _ => ([], ⟨0, []⟩)) (fun _ _ => some [1])
      false true false (fun M => M) [("a", ([[1]], [[0]]))] 1 1 none packAdvC3
      advanced_build_eval⟩

end ClaimC3


section ClaimC6

open NpArr Matrix

theorem except_bind_ok_dest {e a b : Type} {x : Except e a} {f : a → Except e b} {r : b}
    (h : (x >>= f) = .ok r) : ∃ v, x = .ok v ∧ f v = .ok r := by
  cases x with
  | error t =>
    rw [except_bind_err] at h
    exact Except.noConfusion h
  | ok v =>
    rw [except_bind_ok] at h
    exact ⟨v, rfl, h⟩

/-- The heat kernel acts on an eigenvector of the (already symmetric)
Laplacian by the scalar exp(-tau mu). -/
theorem diffuse1_eigenvec {n : ℕ} (L : Matrix (Fin n) (Fin n) ℝ)
    (hL : eighInputMat L = L) (v : Fin n → ℝ) (mu tau : ℝ)
    (hv : L *ᵥ v = mu • v) :
    diffuse1 L v tau = Real.exp (-tau * mu) • v := by
  set U := (npEigh L).2 with hUdef
  set lam := (npEigh L).1 with hlamdef
  have hspec : L = U * Matrix.diagonal lam * Uᵀ := by
    rw [← hL]
    exact npEigh_spectral L
  have h0 : Uᵀ *ᵥ (L *ᵥ v) = mu • (Uᵀ *ᵥ v) := by
    rw [hv, Matrix.mulVec_smul]
  have h1 : Uᵀ *ᵥ (L *ᵥ v) = Matrix.diagonal lam *ᵥ (Uᵀ *ᵥ v) := by
    rw [mulVec_mulVec, mulVec_mulVec]
    congr 1
    rw [hspec]
    simp only [← Matrix.mul_assoc]
    rw [npEigh_UtU, Matrix.one_mul]
  have hdiag : Matrix.diagonal lam *ᵥ (Uᵀ *ᵥ v) = mu • (Uᵀ *ᵥ v) := by
    rw [← h1, h0]
  have hc : ∀ i, lam i * (Uᵀ *ᵥ v) i = mu * (Uᵀ *ᵥ v) i := by
    intro i
    have := congrFun hdiag i
    simpa [Matrix.mulVec_diagonal, Pi.smul_apply, smul_eq_mul] using this
  have hexp : (fun i => Real.exp (-tau * lam i) * (Uᵀ *ᵥ v) i) =
      fun i => Real.exp (-tau * mu) * (Uᵀ *ᵥ v) i := by
    funext i
    by_cases hz : (Uᵀ *ᵥ v) i = 0
    · rw [hz, mul_zero, mul_zero]
    · rw [mul_right_cancel₀ hz (hc i)]
  show applyHeatKernel1 U lam v tau = _
  rw [applyHeatKernel1, hexp]
  have hsm : (fun i => Real.exp (-tau * mu) * (Uᵀ *ᵥ v) i) =
      Real.exp (-tau * mu) • (Uᵀ *ᵥ v) := rfl
  rw [hsm, Matrix.mulVec_smul, mulVec_mulVec, npEigh_UUt, Matrix.one_mulVec]

theorem diffuse1_add {n : ℕ} (L : Matrix (Fin n) (Fin n) ℝ) (a b : Fin n → ℝ)
    (tau : ℝ) : diffuse1 L (a + b) tau = diffuse1 L a tau + diffuse1 L b tau := by
  unfold diffuse1 applyHeatKernel1
  rw [Matrix.mulVec_add]
  have h : (fun i => Real.exp (-tau * (npEigh L).1 i) *
        ((npEigh L).2ᵀ *ᵥ a + (npEigh L).2ᵀ *ᵥ b) i) =
      (fun i => Real.exp (-tau * (npEigh L).1 i) * ((npEigh L).2ᵀ *ᵥ a) i) +
      (fun i => Real.exp (-tau * (npEigh L).1 i) * ((npEigh L).2ᵀ *ᵥ b) i) := by
    funext i
    simp [mul_add]
  rw [h, Matrix.mulVec_add]

theorem diffuse1_smul {n : ℕ} (L : Matrix (Fin n) (Fin n) ℝ) (c : ℝ)
    (v : Fin n → ℝ) (tau : ℝ) :
    diffuse1 L (c • v) tau = c • diffuse1 L v tau := by
  unfold diffuse1 applyHeatKernel1
  rw [Matrix.mulVec_smul]
  have h : (fun i => Real.exp (-tau * (npEigh L).1 i) * (c • ((npEigh L).2ᵀ *ᵥ v)) i) =
      c • fun i => Real.exp (-tau * (npEigh L).1 i) * (((npEigh L).2ᵀ *ᵥ v)) i := by
    funext i
    simp [Pi.smul_apply, smul_eq_mul]
    ring
  rw [h, Matrix.mulVec_smul]

/-- C6 (amended).  The frames returned by run_pipeline_from_vectors are
exactly the build_frames output computed from the raw token vectors and
pack — a function that never sees diffusion_tau or the diffused signal —
and the saliency stored in the token output is likewise the raw per-token
resonance.  Only the tokens' signal field carries the heat-kernel-smoothed
values. -/
theorem claim_C6_frames_raw_amended (X : NpArr ℝ) (pack : AxisPack ℝ)
    (params : OrchestratorParams) (texts : Option (List String)) (out : PipelineOut)
    (h : run_pipeline_from_vectors X pack params texts = .ok out) :
    build_frames X pack 0 (1/2) 2 params.debugFrames params.roleMode
      params.detectEvidence params.detectCondition texts = .ok out.frames ∧
    token_saliency X pack = .ok out.tokens.saliency := by
  rw [run_pipeline_from_vectors] at h
  obtain ⟨ts0, h1, h⟩ := except_bind_ok_dest h
  obtain ⟨ts, h2, h⟩ := except_bind_ok_dest h
  obtain ⟨tok, h3, h⟩ := except_bind_ok_dest h
  obtain ⟨sp, h4, h⟩ := except_bind_ok_dest h
  obtain ⟨fr, h5, h⟩ := except_bind_ok_dest h
  obtain ⟨fv, h6, h⟩ := except_bind_ok_dest h
  rw [compute_token_vectors] at h3
  obtain ⟨sal, h31, h32⟩ := except_bind_ok_dest h3
  rw [except_pure] at h32
  cases h32
  split at h
  · split at h
    · obtain ⟨rp, h7, h⟩ := except_bind_ok_dest h
      rw [except_pure] at h
      cases h
      exact ⟨h5, h31⟩
    · exact Except.noConfusion h
  · rw [except_pure] at h
    cases h
    exact ⟨h5, h31⟩

/-- Two one-dimensional tokens with saliencies 1 and 0. -/
noncomputable def XC6 : NpArr ℝ := a2 ⟨1, [[1], [0]]⟩

/-- A single identity-like axis over d = 1. -/
noncomputable def packC6 : AxisPack ℝ := ⟨["a"], ⟨1, [[1]]⟩, [1], [0], [1], []⟩

/-- Default orchestrator parameters with diffusion_tau = 1. -/
noncomputable def paramsC6 : OrchestratorParams :=
  ⟨5, 2, some 1, false, false, "lr", false, false⟩

theorem salC6_eval : token_saliency XC6 packC6 = .ok (a1 [1, 0]) := by
  rw [token_saliency, resonance, XC6, packC6]
  norm_num [project, matMul2, utilities, aggregate, matTvec, Mat2.col, dotL,
    List.range_succ, npDot]

/-- The n = 2 uniform skip-graph Laplacian. -/
noncomputable def LC6 : Matrix (Fin 2) (Fin 2) ℝ := Matrix.of ![![1, -1], ![-1, 1]]

theorem build_graph_LC6 : (build_graph 2 2 WeightMode.uniform).2 = LC6 := by
  have hW : build_skip_adjacency 2 2 WeightMode.uniform =
      Matrix.of ![![0, 1], ![1, 0]] := by
    ext i j
    fin_cases i <;> fin_cases j <;> norm_num [build_skip_adjacency]
  show laplacian (build_skip_adjacency 2 2 WeightMode.uniform) = LC6
  rw [hW]
  ext i j
  fin_cases i <;> fin_cases j <;>
    norm_num [laplacian, degOf, LC6, Fin.sum_univ_two, Matrix.transpose_apply,
      Matrix.vecHead, Matrix.vecTail]

theorem LC6_eigh_fixed : eighInputMat LC6 = LC6 := by
  refine eighInputMat_of_hermitian _ ?_
  show LC6ᴴ = LC6
  ext i j
  fin_cases i <;> fin_cases j <;>
    simp [LC6, Matrix.conjTranspose_apply]

theorem LC6_eigvec0 : LC6 *ᵥ ![(1 : ℝ), 1] = (0 : ℝ) • ![(1 : ℝ), 1] := by
  ext i
  fin_cases i <;>
    norm_num [LC6, Matrix.mulVec, Matrix.dotProduct, Fin.sum_univ_two]

theorem LC6_eigvec2 : LC6 *ᵥ ![(1 : ℝ), -1] = (2 : ℝ) • ![(1 : ℝ), -1] := by
  ext i
  fin_cases i <;>
    norm_num [LC6, Matrix.mulVec, Matrix.dotProduct, Fin.sum_univ_two]

theorem sig_decomp : (fun j : Fin 2 => ([(1 : ℝ), 0]).getD (j : ℕ) 0) =
    (1 / 2 : ℝ) • ![(1 : ℝ), 1] + (1 / 2 : ℝ) • ![(1 : ℝ), -1] := by
  funext j
  fin_cases j <;> norm_num

/-- The diffused signal at tau = 1. -/
noncomputable def sigC6 : List ℝ :=
  [1 / 2 + Real.exp (-2) / 2, 1 / 2 - Real.exp (-2) / 2]

theorem diffuseArr_C6 : diffuseArr (n := 2) LC6 (a1 [(1 : ℝ), 0]) 1 = .ok (a1 sigC6) := by
  rw [diffuseArr]
  rw [if_pos (by norm_num)]
  have hd : diffuse1 LC6 (fun j : Fin 2 => ([(1 : ℝ), 0]).getD (j : ℕ) 0) 1 =
      (1 / 2 : ℝ) • (Real.exp (-(1 : ℝ) * 0) • ![(1 : ℝ), 1]) +
      (1 / 2 : ℝ) • (Real.exp (-(1 : ℝ) * 2) • ![(1 : ℝ), -1]) := by
    rw [sig_decomp, diffuse1_add, diffuse1_smul, diffuse1_smul,
      diffuse1_eigenvec LC6 LC6_eigh_fixed _ 0 1 LC6_eigvec0,
      diffuse1_eigenvec LC6 LC6_eigh_fixed _ 2 1 LC6_eigvec2]
  rw [hd]
  congr 1
  congr 1
  rw [sigC6]
  rw [show List.ofFn (fun i : Fin 2 =>
      ((1 / 2 : ℝ) • (Real.exp (-(1 : ℝ) * 0) • ![(1 : ℝ), 1]) +
       (1 / 2 : ℝ) • (Real.exp (-(1 : ℝ) * 2) • ![(1 : ℝ), -1])) i) =
    [((1 / 2 : ℝ) • (Real.exp (-(1 : ℝ) * 0) • ![(1 : ℝ), 1]) +
       (1 / 2 : ℝ) • (Real.exp (-(1 : ℝ) * 2) • ![(1 : ℝ), -1])) 0,
     ((1 / 2 : ℝ) • (Real.exp (-(1 : ℝ) * 0) • ![(1 : ℝ), 1]) +
       (1 / 2 : ℝ) • (Real.exp (-(1 : ℝ) * 2) • ![(1 : ℝ), -1])) 1] from by
    simp [List.ofFn_succ]]
  norm_num [Pi.add_apply, Pi.smul_apply, Real.exp_zero]
  constructor <;> ring

theorem spanCoh_01 : span_coherence XC6 packC6 0 1 2 = .ok 0 := by
  rw [span_coherence]
  norm_num [span_skip_pairs, build_skip_pairs, List.range_succ, List.range']

theorem spanCoh_12 : span_coherence XC6 packC6 1 2 2 = .ok 0 := by
  rw [span_coherence]
  norm_num [span_skip_pairs, build_skip_pairs, List.range_succ, List.range']

theorem spanCoh_02 : span_coherence XC6 packC6 0 2 2 = .ok (1 / 2) := by
  rw [span_coherence]
  have hres : resonance (a1 [(1 : ℝ) / 2]) packC6 = .ok (a0 (1 / 2)) := by
    rw [resonance, packC6]
    norm_num [project, matTvec, Mat2.col, dotL, utilities, aggregate, npDot,
      List.range_succ]
  norm_num [span_skip_pairs, build_skip_pairs, List.range_succ, List.range',
    List.mapM.loop, XC6, rowOf, zipArr, asScalar, meanL, hres]

theorem spansC6_eval : compute_span_vectors XC6 packC6 5 2 =
    .ok ([(0, 1), (0, 2), (1, 2)], [0, 1 / 2, 0]) := by
  rw [compute_span_vectors]
  rw [show shape0 XC6 = .ok 2 from rfl, except_bind_ok]
  have hspans : (List.range 2).flatMap (fun i =>
      (List.range' (i + 1) (min 2 (i + 5) + 1 - (i + 1))).map (fun j => ((i, j) : ℕ × ℕ))) =
      [(0, 1), (0, 2), (1, 2)] := by
    norm_num [List.range_succ, List.range']
  rw [hspans]
  simp only [List.mapM_cons, List.mapM_nil, spanCoh_01, spanCoh_02, spanCoh_12,
    except_bind_ok, except_pure]

/-- The single frame the pipeline returns on XC6: predicate token 0 with its
raw saliency 1 as score. -/
noncomputable def frameC6 : Frame ℝ :=
  ⟨"f0", (0, 1), [("arg_left", (0, 1)), ("arg_right", (0, 2))], 1, none⟩

theorem predsC6_eval : detect_predicates XC6 packC6 0 = .ok [0] := by
  rw [detect_predicates, salC6_eval]
  simp only [except_bind_ok, asList1, except_pure]
  have hlm : localMaxima ([(1 : ℝ), 0]) = [0] := by
    rw [localMaxima]
    norm_num [List.range_succ, List.filter_cons, List.filter_nil]
  rw [hlm]
  norm_num [List.filter_cons, List.filter_nil]

theorem framesC6_eval :
    build_frames XC6 packC6 0 (1 / 2) 2 false "lr" false false none = .ok [frameC6] := by
  rw [build_frames, salC6_eval]
  simp only [except_bind_ok, asList1]
  rw [predsC6_eval, except_bind_ok]
  rw [show shape0 XC6 = .ok 2 from rfl, except_bind_ok, except_pure]
  have hmk : mkFrame [(1 : ℝ), 0] 2 [0] (1 / 2) 2 false "lr" false false none 0 =
      frameC6 := by
    rw [mkFrame]
    norm_num [expandArg, expandLeftGo, expandRightGo, assignRoles, detectorRoles,
      frameC6]
    exact ⟨by decide, fun hc => absurd hc (by decide)⟩
  rw [List.map_cons, List.map_nil, hmk]

theorem frameVecsC6_eval : compute_frame_vectors XC6 [frameC6] =
    .ok ⟨3, [[1, 1, 1 / 2]]⟩ := by
  have h1 : frame_embedding (⟨1, [[1], [0]]⟩ : Mat2 ℝ) frameC6 = [1, 1, 1 / 2] := by
    rw [frame_embedding, frameC6]
    simp only [defaultRolesOrder, List.map_cons, List.map_nil]
    rw [if_pos (trivial : True), if_neg (by decide : ¬ ("arg_left" = "predicate")),
      if_neg (by decide : ¬ ("arg_right" = "predicate"))]
    rw [show (([("arg_left", ((0 : ℕ), (1 : ℕ))), ("arg_right", (0, 2))].lookup
        "arg_left").getD (0, 0)) = ((0 : ℕ), (1 : ℕ)) from by decide]
    rw [show (([("arg_left", ((0 : ℕ), (1 : ℕ))), ("arg_right", (0, 2))].lookup
        "arg_right").getD (0, 0)) = ((0 : ℕ), (2 : ℕ)) from by decide]
    norm_num [span_mean, meanL, List.range_succ]
  rw [show XC6 = a2 ⟨1, [[1], [0]]⟩ from rfl]
  simp only [compute_frame_vectors]
  rw [List.map_cons, List.map_nil, h1]

/-- The full pipeline output on XC6 with tau = 1: raw saliency [1, 0] kept
in tokens.saliency, the diffused signal in tokens.signal, and the frame
built from the raw saliency. -/
noncomputable def outC6 : PipelineOut :=
  ⟨⟨XC6, a1 [1, 0], a1 sigC6⟩, ([(0, 1), (0, 2), (1, 2)], [0, 1 / 2, 0]),
   [frameC6], ⟨3, [[1, 1, 1 / 2]]⟩, none, none⟩

theorem pipelineC6_eval :
    run_pipeline_from_vectors XC6 packC6 paramsC6 none = .ok outC6 := by
  rw [run_pipeline_from_vectors, salC6_eval, except_bind_ok]
  rw [show paramsC6.diffusionTau = some 1 from rfl]
  simp only []
  rw [show shape0 XC6 = .ok 2 from rfl, except_bind_ok]
  rw [if_pos (by norm_num : (2 : ℕ) ≤ 2)]
  rw [show paramsC6.maxSkip = 2 from rfl]
  rw [build_graph_LC6, diffuseArr_C6, except_bind_ok]
  rw [compute_token_vectors, salC6_eval, except_bind_ok, except_pure, except_bind_ok]
  simp only [Option.getD_some]
  rw [show paramsC6.maxSpanLen = 5 from rfl]
  rw [spansC6_eval, except_bind_ok]
  rw [show paramsC6.debugFrames = false from rfl, show paramsC6.roleMode = "lr" from rfl,
    show paramsC6.detectEvidence = false from rfl,
    show paramsC6.detectCondition = false from rfl]
  rw [framesC6_eval, except_bind_ok, frameVecsC6_eval, except_bind_ok]
  rw [if_neg (by simp [paramsC6])]
  rw [except_pure, outC6]

/-- C6 counterexample.  A concrete run with diffusion_tau = 1 and n = 2:
the returned frame's predicate score is the raw saliency 1, while the
heat-kernel-smoothed signal at the predicate token is 1/2 + e^(-2)/2 < 1,
so the frame contents are not determined by the diffused signal. -/
theorem claim_C6_frames_raw_counterexample :
    run_pipeline_from_vectors XC6 packC6 paramsC6 none = .ok outC6 ∧
    outC6.frames.map (fun fr => fr.score) = [1] ∧
    outC6.tokens.signal = a1 [1 / 2 + Real.exp (-2) / 2, 1 / 2 - Real.exp (-2) / 2] ∧
    1 / 2 + Real.exp (-2) / 2 < 1 := by
  refine ⟨pipelineC6_eval, rfl, rfl, ?_⟩
  have h : Real.exp (-2 : ℝ) < Real.exp 0 := Real.exp_lt_exp.2 (by norm_num)
  rw [Real.exp_zero] at h
  linarith

/-- C6 witness: the amended theorem applied to the concrete diffused run. -/
theorem claim_C6_frames_raw_amended_witness :
    build_frames XC6 packC6 0 (1 / 2) 2 paramsC6.debugFrames paramsC6.roleMode
      paramsC6.detectEvidence paramsC6.detectCondition none = .ok outC6.frames ∧
    token_saliency XC6 packC6 = .ok outC6.tokens.saliency :=
  claim_C6_frames_raw_amended XC6 packC6 paramsC6 none outC6 pipelineC6_eval

end ClaimC6

section ClaimC4

variable {α : Type} [LinearOrderedField α]

open List

theorem insertAsc_perm (a : α) (l : List α) : insertAsc a l ~ a :: l := by
  induction l with
  | nil => exact Perm.refl _
  | cons b bs ih =>
    rw [insertAsc]
    split
    · exact Perm.refl _
    · exact (Perm.cons b ih).trans (Perm.swap a b bs)

theorem sortAsc_perm (l : List α) : sortAsc l ~ l := by
  induction l with
  | nil => exact Perm.refl _
  | cons a as ih => exact (insertAsc_perm a (sortAsc as)).trans (Perm.cons a ih)

theorem insertAsc_sorted (a : α) (l : List α) (h : l.Sorted (· ≤ ·)) :
    (insertAsc a l).Sorted (· ≤ ·) := by
  induction l with
  | nil => simp [insertAsc]
  | cons b bs ih =>
    rw [insertAsc]
    split
    · next hab =>
      rw [sorted_cons]
      refine ⟨fun z hz => ?_, h⟩
      rcases mem_cons.1 hz with rfl | hz2
      · exact hab
      · exact hab.trans ((sorted_cons.1 h).1 z hz2)
    · next hab =>
      rw [sorted_cons]
      refine ⟨fun z hz => ?_, ih (sorted_cons.1 h).2⟩
      rcases mem_cons.1 ((insertAsc_perm a bs).mem_iff.1 hz) with rfl | hz2
      · exact le_of_not_le hab
      · exact (sorted_cons.1 h).1 z hz2

theorem sortAsc_sorted (l : List α) : (sortAsc l).Sorted (· ≤ ·) := by
  induction l with
  | nil => simp [sortAsc]
  | cons a as ih => exact insertAsc_sorted a (sortAsc as) ih

/-- The per-coordinate telescoping contribution of the Choquet loop: the
prefix of sorted values not exceeding c, telescoped against the running
previous value. -/
def chqG (c : α) : List α → α → α
  | [], _ => 0
  | y :: t, prev => (if y ≤ c then y - prev else 0) + chqG c t y

theorem chqG_gt (c : α) (t : List α) (prev : α) (h : ∀ z ∈ t, c < z) :
    chqG c t prev = 0 := by
  induction t generalizing prev with
  | nil => rfl
  | cons y ys ih =>
    rw [chqG, if_neg (not_le.2 (h y (mem_cons_self y ys))), zero_add]
    exact ih _ (fun z hz => h z (mem_cons_of_mem y hz))

theorem chqG_eval (c : α) (ys : List α) (prev : α)
    (hs : ys.Sorted (· ≤ ·)) (hc : c ∈ ys) : chqG c ys prev = c - prev := by
  induction ys generalizing prev with
  | nil => exact absurd hc (not_mem_nil c)
  | cons y t ih =>
    rw [chqG]
    by_cases hct : c ∈ t
    · rw [ih y (sorted_cons.1 hs).2 hct,
        if_pos ((sorted_cons.1 hs).1 c hct)]
      ring
    · have hcy : c = y := by
        rcases mem_cons.1 hc with rfl | h2
        · rfl
        · exact absurd h2 hct
      subst hcy
      rw [if_pos le_rfl, chqG_gt c t c (fun z hz => ?_), add_zero]
      rcases lt_or_eq_of_le ((sorted_cons.1 hs).1 z hz) with h | h
      · exact h
      · exact absurd h.symm (fun he => hct (he ▸ hz))

theorem levelSet_sep (x : List α) (t : α) (ht : t ∈ x)
    (hsep : ∀ a ∈ x, ∀ b ∈ x, a = b ∨ epsTie < |a - b|) :
    levelSet x t = (Finset.range x.length).filter (fun j => t ≤ x.getD j 0) := by
  rw [levelSet]
  refine Finset.filter_congr (fun j hj => ?_)
  rw [Finset.mem_range] at hj
  have hxj : x.getD j 0 ∈ x := by
    rw [List.getD_eq_getElem _ _ hj]
    exact List.getElem_mem _
  have hε : (0 : α) < epsTie := by
    rw [epsTie]
    norm_num
  constructor
  · intro h
    rcases hsep t ht (x.getD j 0) hxj with he | hgap
    · exact le_of_eq he
    · by_contra hlt
      push_neg at hlt
      rw [abs_of_pos (by linarith)] at hgap
      linarith
  · intro h
    linarith

theorem choquetLoop_additive (x w : List α) (mu : List (Finset ℕ × α))
    (hsep : ∀ a ∈ x, ∀ b ∈ x, a = b ∨ epsTie < |a - b|)
    (hadd : ∀ A : Finset ℕ, A ⊆ Finset.range x.length →
      lookupD mu A 0 = ∑ j ∈ A, w.getD j 0)
    (ys : List α) (hys : ∀ y ∈ ys, y ∈ x) (prev : α) :
    choquetLoop x mu ys prev =
      ∑ j ∈ Finset.range x.length, w.getD j 0 * chqG (x.getD j 0) ys prev := by
  induction ys generalizing prev with
  | nil => simp [choquetLoop, chqG]
  | cons y t ih =>
    rw [choquetLoop, levelSet_sep x y (hys y (List.mem_cons_self y t)) hsep,
      hadd _ (Finset.filter_subset _ _),
      ih (fun z hz => hys z (List.mem_cons_of_mem y hz)) y]
    have hterm : ∀ j ∈ Finset.range x.length,
        w.getD j 0 * chqG (x.getD j 0) (y :: t) prev =
        (if y ≤ x.getD j 0 then w.getD j 0 * (y - prev) else 0) +
          w.getD j 0 * chqG (x.getD j 0) t y := by
      intro j hj
      rw [chqG, mul_add, mul_ite, mul_zero]
    rw [Finset.sum_congr rfl hterm, Finset.sum_add_distrib, ← Finset.sum_filter,
      ← Finset.sum_mul, mul_comm]

/-- C4 (amended).  The Choquet integral with an additive capacity
mu(A) = sum of w[i] over i in A reproduces the linear aggregation u . w for
every utility vector whose distinct entries are separated by more than the
1e-12 tie tolerance (ties, i.e. exactly equal entries, are allowed).  When
two distinct entries lie within 1e-12 of each other the tie mask merges
their level sets and the result can differ from the linear value. -/
theorem claim_C4_choquet_additive_amended (x w : List α) (mu : List (Finset ℕ × α))
    (hw : w.length = x.length)
    (hsep : ∀ a ∈ x, ∀ b ∈ x, a = b ∨ epsTie < |a - b|)
    (hadd : ∀ A : Finset ℕ, A ⊆ Finset.range x.length →
      lookupD mu A 0 = ∑ j ∈ A, w.getD j 0) :
    choquet_integral x mu = dotL x w := by
  rw [choquet_integral,
    choquetLoop_additive x w mu hsep hadd (sortAsc x)
      (fun y hy => (sortAsc_perm x).mem_iff.1 hy) 0]
  have h1 : ∀ j ∈ Finset.range x.length,
      w.getD j 0 * chqG (x.getD j 0) (sortAsc x) 0 = w.getD j 0 * x.getD j 0 := by
    intro j hj
    rw [Finset.mem_range] at hj
    have hxj : x.getD j 0 ∈ x := by
      rw [List.getD_eq_getElem _ _ hj]
      exact List.getElem_mem _
    rw [chqG_eval _ _ _ (sortAsc_sorted x) ((sortAsc_perm x).mem_iff.2 hxj), sub_zero]
  rw [Finset.sum_congr rfl h1, dotL_eq_sum, hw, Nat.min_self]
  exact Finset.sum_congr rfl (fun j _ => mul_comm _ _)

/-- Utilities 0 and 5e-13: distinct but within the 1e-12 tie tolerance. -/
def xC4 : List ℚ := [0, 1 / 2000000000000]

/-- The additive capacity generated by the weights [1, 0]. -/
def muC4 : List (Finset ℕ × ℚ) := [(∅, 0), ({0}, 1), ({1}, 0), ({0, 1}, 1)]

theorem lookupD_muC4_empty : lookupD muC4 ∅ 0 = 0 := by
  rw [muC4, lookupD, if_pos rfl]

theorem lookupD_muC4_zero : lookupD muC4 {0} 0 = 1 := by
  rw [muC4, lookupD, if_neg (by decide), lookupD, if_pos rfl]

theorem lookupD_muC4_one : lookupD muC4 {1} 0 = 0 := by
  rw [muC4, lookupD, if_neg (by decide), lookupD, if_neg (by decide), lookupD,
    if_pos rfl]

theorem lookupD_muC4_both : lookupD muC4 {0, 1} 0 = 1 := by
  rw [muC4, lookupD, if_neg (by decide), lookupD, if_neg (by decide), lookupD,
    if_neg (by decide), lookupD, if_pos rfl]

theorem muC4_additive : ∀ A ⊆ Finset.range 2,
    lookupD muC4 A 0 = ∑ j ∈ A, ([(1 : ℚ), 0]).getD j 0 := by
  intro A hA
  have hA2 : A ∈ (Finset.range 2).powerset := Finset.mem_powerset.2 hA
  fin_cases hA2
  · show lookupD muC4 ∅ 0 = ∑ j ∈ (∅ : Finset ℕ), ([(1 : ℚ), 0]).getD j 0
    rw [lookupD_muC4_empty, Finset.sum_empty]
  · show lookupD muC4 {0} 0 = ∑ j ∈ ({0} : Finset ℕ), ([(1 : ℚ), 0]).getD j 0
    rw [lookupD_muC4_zero, Finset.sum_singleton]
    norm_num
  · show lookupD muC4 {1} 0 = ∑ j ∈ ({1} : Finset ℕ), ([(1 : ℚ), 0]).getD j 0
    rw [lookupD_muC4_one, Finset.sum_singleton]
    norm_num
  · show lookupD muC4 {0, 1} 0 = ∑ j ∈ ({0, 1} : Finset ℕ), ([(1 : ℚ), 0]).getD j 0
    rw [lookupD_muC4_both]
    rw [show ({0, 1} : Finset ℕ) = insert 0 {1} from rfl,
      Finset.sum_insert (by decide), Finset.sum_singleton]
    norm_num

theorem choquet_xC4_eval : choquet_integral xC4 muC4 = 1 / 2000000000000 := by
  have hsort : sortAsc xC4 = [0, 1 / 2000000000000] := by
    rw [xC4, sortAsc, sortAsc, sortAsc, insertAsc, insertAsc, if_pos (by norm_num)]
  have hls0 : levelSet xC4 0 = {0, 1} := by
    rw [levelSet, xC4]
    rw [show Finset.range ([(0 : ℚ), 1 / 2000000000000].length) = {0, 1} from by decide]
    rw [show ({0, 1} : Finset ℕ) = insert 0 {1} from rfl, Finset.filter_insert,
      Finset.filter_singleton]
    rw [if_pos (by norm_num [epsTie]), if_pos (by norm_num [epsTie])]
  have hls1 : levelSet xC4 (1 / 2000000000000) = {0, 1} := by
    rw [levelSet, xC4]
    rw [show Finset.range ([(0 : ℚ), 1 / 2000000000000].length) = {0, 1} from by decide]
    rw [show ({0, 1} : Finset ℕ) = insert 0 {1} from rfl, Finset.filter_insert,
      Finset.filter_singleton]
    rw [if_pos (by norm_num [epsTie]), if_pos (by norm_num [epsTie])]
  rw [choquet_integral, hsort, choquetLoop, choquetLoop, choquetLoop]
  rw [hls0, hls1, lookupD_muC4_both]
  ring

/-- C4 counterexample.  The capacity muC4 is exactly additive with weights
[1, 0] on every subset of {0, 1}, yet the Choquet integral of [0, 5e-13]
is 5e-13 while the linear aggregation is 0: the 1e-12 tie mask lumps both
entries into one level set. -/
theorem claim_C4_choquet_additive_counterexample :
    (∀ A ⊆ Finset.range 2, lookupD muC4 A 0 = ∑ j ∈ A, ([(1 : ℚ), 0]).getD j 0) ∧
    choquet_integral xC4 muC4 = 1 / 2000000000000 ∧
    dotL xC4 [(1 : ℚ), 0] = 0 ∧
    (1 : ℚ) / 2000000000000 ≠ 0 := by
  refine ⟨muC4_additive, choquet_xC4_eval, ?_, by norm_num⟩
  rw [xC4, dotL]
  norm_num

/-- C4 witness: the amended theorem applied to utilities [1, 0] (separated
by 1, far above the tolerance) and the additive capacity of weights
[1/2, 1/2]. -/
theorem claim_C4_choquet_additive_amended_witness :
    choquet_integral [(1 : ℚ), 0] [(∅, 0), ({0}, 1 / 2), ({1}, 1 / 2), ({0, 1}, 1)] =
      dotL [(1 : ℚ), 0] [1 / 2, 1 / 2] := by
  refine claim_C4_choquet_additive_amended [(1 : ℚ), 0] [1 / 2, 1 / 2] _ rfl ?_ ?_
  · intro a ha b hb
    simp only [List.mem_cons, List.not_mem_nil, or_false] at ha hb
    rcases ha with rfl | rfl <;> rcases hb with rfl | rfl
    · exact Or.inl rfl
    · right
      rw [epsTie]
      norm_num
    · right
      rw [epsTie]
      norm_num
    · exact Or.inl rfl
  · intro A hA
    have hA2 : A ∈ (Finset.range 2).powerset := Finset.mem_powerset.2 hA
    fin_cases hA2
    · show lookupD [(∅, 0), ({0}, 1 / 2), ({1}, 1 / 2), ({0, 1}, 1)] ∅ 0 =
        ∑ j ∈ (∅ : Finset ℕ), ([(1 : ℚ) / 2, 1 / 2]).getD j 0
      rw [lookupD, if_pos rfl, Finset.sum_empty]
    · show lookupD [(∅, 0), ({0}, 1 / 2), ({1}, 1 / 2), ({0, 1}, 1)] {0} 0 =
        ∑ j ∈ ({0} : Finset ℕ), ([(1 : ℚ) / 2, 1 / 2]).getD j 0
      rw [lookupD, if_neg (by decide), lookupD, if_pos rfl, Finset.sum_singleton]
      norm_num
    · show lookupD [(∅, 0), ({0}, 1 / 2), ({1}, 1 / 2), ({0, 1}, 1)] {1} 0 =
        ∑ j ∈ ({1} : Finset ℕ), ([(1 : ℚ) / 2, 1 / 2]).getD j 0
      rw [lookupD, if_neg (by decide), lookupD, if_neg (by decide), lookupD,
        if_pos rfl, Finset.sum_singleton]
      norm_num
    · show lookupD [(∅, 0), ({0}, 1 / 2), ({1}, 1 / 2), ({0, 1}, 1)] {0, 1} 0 =
        ∑ j ∈ ({0, 1} : Finset ℕ), ([(1 : ℚ) / 2, 1 / 2]).getD j 0
      rw [lookupD, if_neg (by decide), lookupD, if_neg (by decide), lookupD,
        if_neg (by decide), lookupD, if_pos rfl]
      rw [show ({0, 1} : Finset ℕ) = insert 0 {1} from rfl,
        Finset.sum_insert (by decide), Finset.sum_singleton]
      norm_num

end ClaimC4
